import Mathlib

/-!
# ESP_Wifi_Comm: discovery-and-command subsystem

A shallow embedding of `src/wifi_enable.c` and `src/wifi_config.h`:

* `quick_ping_ip`       (wifi_enable.c 157-190)
* `tcp_connection_task` (wifi_enable.c 193-266)
* `scan_network`        (wifi_enable.c 269-307)

The network stack, the GPIO driver and the RTOS are collaborators.  Every
answer they give to the code (return values, bytes received, the value the
shared flag has when it is read) is an explicit input of the embedding, and
every call the code makes to them is recorded as an `Event`.  Log calls
(`ESP_LOGx`) have no effect on the state and are left out.
-/

namespace WifiComm

/-! ## Configuration (wifi_config.h) -/

/-- One `char` of a C buffer, read as `unsigned char` the way `strcmp` does. -/
abbrev Byte := Fin 256

def SERVER_PORT : Nat := 20000
def SERVER_ID : String := "123456"
def SCAN_START_IP : Int := 254
def SCAN_END_IP : Int := 250
def IP_PREFIX : String := "192.168.1."
def PING_TIMEOUT_MS : Nat := 100
def GPIO_GATE_PIN : Nat := 4
def GATE_OPEN_DURATION : Nat := 500
def GATE_CMD : String := "GATE"
def SCAN_INTERVAL_MS : Nat := 5000
def SCAN_RETRY_DELAY_MS : Nat := 1000
def TASK_STACK_SIZE : Nat := 4096

/-- Error numbers of the C library the code compares `errno` with; their
values come from the platform headers, which are not part of the repository. -/
structure Platform where
  EAGAIN : Int
  EWOULDBLOCK : Int
deriving DecidableEq, Repr

/-! ## C strings -/

/-- The bytes of a string literal, without its terminator.  It is applied to
ASCII text only (the literals of wifi_config.h and decimal numerals), where a
character is one byte. -/
def cbytes (s : String) : List Byte :=
  s.data.map (fun c => Fin.ofNat c.toNat)

/-- The memory image of a string literal: its bytes followed by `'\0'`. -/
def cstr (s : String) : List Byte :=
  cbytes s ++ [0]

/-- The libc `strcmp` on two byte sequences in memory: walk both until the
bytes differ or a terminator is reached.  The end of a list stands for memory
the embedding does not describe and reads as a terminator; it is never reached
when one of the arguments carries its terminator. -/
def strcmp : List Byte → List Byte → Int
  | [], [] => 0
  | [], b :: _ => 0 - (b.val : Int)
  | a :: _, [] => (a.val : Int)
  | a :: as, b :: bs =>
    if a ≠ b then (a.val : Int) - (b.val : Int)
    else if a = 0 then 0
    else strcmp as bs

/-- The C string found at the start of `bytes`: the bytes before the first zero
byte.  It is what `strcmp` and the `%s` of `snprintf` look at. -/
def c_string_of (bytes : List Byte) : List Byte :=
  bytes.takeWhile (fun b => b ≠ 0)

/-! ## Collaborator calls -/

/-- A call made to a collaborator, or a write of the shared flag.  An address
`ip` is a C string, given by its bytes. -/
inductive Event where
  | socket                                  -- socket(AF_INET, SOCK_STREAM, 0)
  | fcntl_getfl (fd : Int)                  -- fcntl(sock, F_GETFL, 0)
  | fcntl_nonblock (fd : Int)               -- fcntl(sock, F_SETFL, flags | O_NONBLOCK)
  | connect (fd : Int) (ip : List Byte) (port : Nat)  -- connect(sock, &serverInfo, ...)
  | select (fd : Int) (timeout_ms : Nat)    -- select(sock + 1, NULL, &writefds, NULL, &timeout)
  | recv (fd : Int) (size : Nat)            -- recv(sock, buffer, size, 0)
  | gpio_config (pin : Nat)                 -- gpio_config(&io_conf), output mode
  | gpio_set_level (pin level : Nat)        -- gpio_set_level(pin, level)
  | vTaskDelay (ms : Nat)                   -- vTaskDelay(pdMS_TO_TICKS(ms))
  | close (fd : Int)                        -- close(sock)
  | set_server_found (b : Bool)             -- server_found = b
  | read_server_found (b : Bool)            -- a read of server_found that gave b
  | quick_ping_ip (ip : List Byte)          -- quick_ping_ip(ip)
  | xTaskCreate (ip : List Byte)            -- xTaskCreate(tcp_connection_task, ..., strdup(ip), ...)
  | free_ip                                 -- free(ip)
  | vTaskDelete                             -- vTaskDelete(NULL)
deriving DecidableEq, Repr

/-! ## tcp_connection_task -/

/-- The size of `char buffer[128]`. -/
def BUFFER_SIZE : Nat := 128

/-- What one call `recv(sock, buffer, sizeof(buffer) - 1, 0)` gives back: the
return value `len`, the bytes it copied to the start of `buffer` (when
`len > 0`), and the value of `errno` after the call (when `len < 0`). -/
structure RecvResult where
  len : Int
  bytes : List Byte
  errno : Int
deriving DecidableEq, Repr

/-- A read that delivered `bytes`. -/
def RecvResult.data (bytes : List Byte) : RecvResult := ⟨(bytes.length : Int), bytes, 0⟩

/-- A read of length zero: the peer closed the connection. -/
def RecvResult.closed : RecvResult := ⟨0, [], 0⟩

/-- A failed read, `len = -1`, with `errno` set. -/
def RecvResult.error (errno : Int) : RecvResult := ⟨-1, [], errno⟩

/-- A read result `recv` can give when asked for `size` bytes: it never
delivers more than it was asked for, and a positive `len` is the number of
bytes delivered. -/
def RecvResult.wf (size : Nat) (r : RecvResult) : Prop :=
  r.len ≤ (size : Int) ∧ (0 < r.len → (r.bytes.length : Int) = r.len)

instance (size : Nat) (r : RecvResult) : Decidable (r.wf size) := by
  unfold RecvResult.wf; infer_instance

/-- The state the worker reads and writes: the shared flag `server_found`,
the level of the gate pin, and its local `buffer`. -/
structure World where
  server_found : Bool
  gate : Nat
  buffer : List Byte
deriving DecidableEq, Repr

/-- Whether the receive loop goes round again or was left by `break`. -/
inductive Flow where
  | continue_
  | break_
deriving DecidableEq, Repr

/-- The effect on `buffer` of `recv` delivering `len` bytes followed by
`buffer[len] = '\0'` (lines 222 and 225). -/
def store_token (buffer : List Byte) (bytes : List Byte) (len : Nat) : List Byte :=
  (bytes.take len ++ buffer.drop len).set len 0

/-- The call `gpio_set_level(GPIO_GATE_PIN, level)`. -/
def gpio_set_level (w : World) (level : Nat) : World :=
  { w with gate := level }

/-- One round of the `while (1)` loop after `recv` returned `r`
(lines 223-254): whether the loop goes on, the new state, the calls made. -/
def recv_iter (P : Platform) (r : RecvResult) (w : World) : Flow × World × List Event :=
  if r.len > 0 then
    let w1 := { w with buffer := store_token w.buffer r.bytes r.len.toNat }
    if strcmp w1.buffer (cstr SERVER_ID) = 0 then
      (.continue_, w1, [])
    else if strcmp w1.buffer (cstr GATE_CMD) = 0 then
      let w2 := gpio_set_level w1 1
      let w3 := gpio_set_level w2 0
      (.continue_, w3,
        [.gpio_set_level GPIO_GATE_PIN 1, .vTaskDelay GATE_OPEN_DURATION,
         .gpio_set_level GPIO_GATE_PIN 0])
    else
      (.continue_, w1, [])
  else if r.len = 0 then
    (.break_, w, [])
  else
    if r.errno ≠ P.EAGAIN ∧ r.errno ≠ P.EWOULDBLOCK then (.break_, w, [])
    else (.continue_, w, [])

/-- How a run of the worker stands when the read results given to it are used
up: it has terminated, or it is waiting in `recv` for the next one. -/
inductive Status where
  | terminated
  | in_recv
deriving DecidableEq, Repr

/-- The `while (1)` loop of lines 220-255, fed with the results of its
successive `recv` calls.  `Flow.break_` in the result means the loop was left;
`Flow.continue_` means the results ran out with the worker inside `recv`. -/
def recv_loop (P : Platform) (sock : Int) : List RecvResult → World → Flow × World × List Event
  | [], w => (.continue_, w, [.recv sock (BUFFER_SIZE - 1)])
  | r :: rs, w =>
    match recv_iter P r w with
    | (.break_, w1, es) => (.break_, w1, .recv sock (BUFFER_SIZE - 1) :: es)
    | (.continue_, w1, es) =>
      let (f, w2, es2) := recv_loop P sock rs w1
      (f, w2, .recv sock (BUFFER_SIZE - 1) :: es ++ es2)

/-- The answers of the network stack to one worker. -/
structure WorkerEnv where
  sock : Int                  -- result of socket()
  connect_rc : Int            -- result of connect()
  reads : List RecvResult     -- results of the successive recv() calls
deriving DecidableEq, Repr

/-- The body of `tcp_connection_task` (lines 193-266). -/
def tcp_connection_task (P : Platform) (ip : List Byte) (env : WorkerEnv) (w : World) :
    Status × World × List Event :=
  if env.sock < 0 then
    (.terminated, w, [.socket, .free_ip, .vTaskDelete])
  else if env.connect_rc = 0 then
    let w1 := { w with server_found := true }
    match recv_loop P env.sock env.reads w1 with
    | (.continue_, w2, es) =>
      (.in_recv, w2, [.socket, .connect env.sock ip SERVER_PORT, .set_server_found true] ++ es)
    | (.break_, w2, es) =>
      (.terminated, { w2 with server_found := false },
        [.socket, .connect env.sock ip SERVER_PORT, .set_server_found true] ++ es ++
        [.close env.sock, .set_server_found false, .free_ip, .vTaskDelete])
  else
    (.terminated, { w with server_found := false },
      [.socket, .connect env.sock ip SERVER_PORT, .close env.sock, .set_server_found false,
       .free_ip, .vTaskDelete])


/-! ## quick_ping_ip -/

/-- The answers of the network stack during one call of `quick_ping_ip`.
`so_error` is the error pending on the socket when `select` returns (what
`getsockopt(SO_ERROR)` would report, 0 when there is none); like the result of
`connect`, the code never looks at it. -/
structure ProbeEnv where
  sock : Int             -- result of socket()
  connect_rc : Int       -- result of connect() on the non-blocking socket
  select_rc : Int        -- result of select()
  writable : Bool        -- FD_ISSET(sock, &writefds) after select()
  so_error : Int         -- pending error of the connection attempt
deriving DecidableEq, Repr

/-- The body of `quick_ping_ip` (lines 157-190): the value returned and the
calls made. -/
def quick_ping_ip (t : ProbeEnv) (ip : List Byte) : Bool × List Event :=
  if t.sock < 0 then
    (false, [.socket])
  else
    (decide (t.select_rc > 0) && t.writable,
      [.socket, .fcntl_getfl t.sock, .fcntl_nonblock t.sock,
       .connect t.sock ip SERVER_PORT, .select t.sock PING_TIMEOUT_MS, .close t.sock])

/-! ## scan_network -/

/-- The size of `char ip[16]`. -/
def IP_SIZE : Nat := 16

/-- The call `snprintf(ip, size, "%s%d", s, d)`: the C string left in `ip`.
The formatted text is the C string at `s` followed by the decimal digits of
`d` (with a leading `-` when negative), and `snprintf` stores its first
`size - 1` bytes, then the terminator. -/
def snprintf_s_d (size : Nat) (s : List Byte) (d : Int) : List Byte :=
  (c_string_of s ++ cbytes (toString d)).take (size - 1)

/-- The three macros the scan is configured with.  `pfx` is the memory the
macro IP_PREFIX stands for, byte by byte. -/
structure ScanConfig where
  pfx : List Byte        -- IP_PREFIX
  start_ip : Int         -- SCAN_START_IP
  end_ip : Int           -- SCAN_END_IP
deriving DecidableEq, Repr

/-- The configuration of wifi_config.h. -/
def scan_config : ScanConfig := ⟨cstr IP_PREFIX, SCAN_START_IP, SCAN_END_IP⟩

/-- What the scanner meets while it runs: `flag k` is the value of
`server_found` at the scanner's `k`-th read of it (workers write it
concurrently), `probe k` the stack's answers during the `k`-th probe. -/
structure ScanEnv where
  flag : Nat → Bool
  probe : Nat → ProbeEnv

/-- How many reads of `server_found` and how many probes the scanner has made. -/
structure ScanState where
  reads : Nat
  probes : Nat
deriving DecidableEq, Repr

/-- The `for` loop of lines 277-298 from index `i` on.  `fuel` bounds the
number of rounds; `none` means it ran out before the loop condition failed.
The index is a C `int`; with bounds in the range of an octet `i--` cannot
overflow, and it is an unbounded integer here. -/
def scan_for (c : ScanConfig) (env : ScanEnv) :
    Nat → Int → ScanState → Option (ScanState × List Event)
  | 0, i, st => if i ≥ c.end_ip then none else some (st, [])
  | fuel + 1, i, st =>
    if i ≥ c.end_ip then
      if env.flag st.reads then
        some ({ st with reads := st.reads + 1 }, [.read_server_found true])
      else
        let ip := snprintf_s_d IP_SIZE c.pfx i
        let live := (quick_ping_ip (env.probe st.probes) ip).1
        let es := [.read_server_found false, .quick_ping_ip ip] ++
          (if live then [.xTaskCreate ip] else []) ++ [.vTaskDelay SCAN_RETRY_DELAY_MS]
        match scan_for c env fuel (i - 1) ⟨st.reads + 1, st.probes + 1⟩ with
        | none => none
        | some (st1, es1) => some (st1, es ++ es1)
    else
      some (st, [])

/-- One round of the outer `while (1)` of lines 273-306. -/
def scan_cycle (c : ScanConfig) (env : ScanEnv) (st : ScanState) :
    Option (ScanState × List Event) :=
  if env.flag st.reads then
    some ({ st with reads := st.reads + 1 },
      [.read_server_found true, .vTaskDelay SCAN_INTERVAL_MS])
  else
    match scan_for c env (c.start_ip + 1 - c.end_ip).toNat c.start_ip
        { st with reads := st.reads + 1 } with
    | none => none
    | some (st1, es) =>
      some ({ st1 with reads := st1.reads + 1 },
        .read_server_found false :: es ++
        [.read_server_found (env.flag st1.reads), .vTaskDelay SCAN_INTERVAL_MS])

/-- The first `n` rounds of `scan_network` (lines 269-307); the function itself
never returns. -/
def scan_network (c : ScanConfig) (env : ScanEnv) :
    Nat → ScanState → Option (ScanState × List Event)
  | 0, st => some (st, [])
  | n + 1, st =>
    match scan_cycle c env st with
    | none => none
    | some (st1, es) =>
      match scan_network c env n st1 with
      | none => none
      | some (st2, es2) => some (st2, es ++ es2)

/-- The addresses probed, in order. -/
def probes_of : List Event → List (List Byte)
  | [] => []
  | .quick_ping_ip ip :: es => ip :: probes_of es
  | _ :: es => probes_of es

/-- The indices `start, start - 1, ...`, `n` of them. -/
def descending (start : Int) (n : Nat) : List Int :=
  List.map (fun (j : Nat) => start - (j : Int)) (List.range n)

/-- The gate level after the calls `es`, starting from level `g`. -/
def gate_level (g : Nat) : List Event → Nat
  | [] => g
  | .gpio_set_level pin level :: es =>
    gate_level (if pin = GPIO_GATE_PIN then level else g) es
  | _ :: es => gate_level g es

/-- A read that ends the receive loop: of length zero, or failed with an
`errno` that is not would-block. -/
def RecvResult.ends_loop (P : Platform) (r : RecvResult) : Prop :=
  r.len = 0 ∨ (r.len < 0 ∧ r.errno ≠ P.EAGAIN ∧ r.errno ≠ P.EWOULDBLOCK)

instance (P : Platform) (r : RecvResult) : Decidable (r.ends_loop P) := by
  unfold RecvResult.ends_loop; infer_instance

/-! ## Scanner and workers running together

`scan_network` runs in the main task and every `xTaskCreate` starts a task
running `tcp_connection_task`; the tasks share `server_found`.  The system is
a step relation: at each step one task executes its next statement that
touches the flag or a collaborator, and the scheduler picks the task. -/

/-- The statement a worker executes next.  `claimed` records whether this
worker has executed `server_found = true` (line 218). -/
inductive WPc where
  | at_socket                      -- line 206: socket()
  | at_connect                     -- line 215: connect()
  | at_claim                       -- line 218: server_found = true
  | at_recv                        -- lines 220-255: inside the receive loop
  | at_close (claimed : Bool)      -- line 262: close(sock)
  | at_release (claimed : Bool)    -- line 263: server_found = false
  | done                           -- after vTaskDelete(NULL)
deriving DecidableEq, Repr

/-- The statement the scanner executes next. -/
inductive SPc where
  | cycle_check                    -- line 275: if (!server_found)
  | loop_test (i : Int)            -- line 277: i >= SCAN_END_IP
  | mid_check (i : Int)            -- line 279: if (server_found) break
  | probe (i : Int)                -- lines 285-287: quick_ping_ip(ip)
  | spawn (i : Int)                -- line 290: xTaskCreate
  | probe_delay (i : Int)          -- line 297: vTaskDelay, then i--
  | end_check                      -- line 300: if (!server_found)
  | cycle_delay                    -- line 305: vTaskDelay
deriving DecidableEq, Repr

/-- The shared flag, the scanner, and the workers created so far. -/
structure Sys where
  server_found : Bool
  scanner : SPc
  workers : List WPc
deriving DecidableEq, Repr

/-- One scheduling decision, with the answer of the collaborator involved:
for the scanner the result of the probe (when its next statement is the
probe); for worker `k` whether `socket` or `connect` succeeded, or whether the
round of the receive loop goes on (when its next statement is one of these). -/
inductive Action where
  | scanner (live : Bool)
  | worker (k : Nat) (ok : Bool)
deriving DecidableEq, Repr

/-- A worker executes its next statement: the new value of the flag and the
statement that follows; `none` when the worker has terminated. -/
def worker_step (flag : Bool) (ok : Bool) : WPc → Option (Bool × WPc)
  | .at_socket => some (flag, if ok then .at_connect else .done)
  | .at_connect => some (flag, if ok then .at_claim else .at_close false)
  | .at_claim => some (true, .at_recv)
  | .at_recv => some (flag, if ok then .at_recv else .at_close true)
  | .at_close c => some (flag, .at_release c)
  | .at_release _ => some (false, .done)
  | .done => none

/-- The scanner executes its next statement. -/
def scanner_step (c : ScanConfig) (s : Sys) (live : Bool) : Sys :=
  match s.scanner with
  | .cycle_check =>
    if !s.server_found then { s with scanner := .loop_test c.start_ip }
    else { s with scanner := .cycle_delay }
  | .loop_test i =>
    if i ≥ c.end_ip then { s with scanner := .mid_check i }
    else { s with scanner := .end_check }
  | .mid_check i =>
    if s.server_found then { s with scanner := .end_check }
    else { s with scanner := .probe i }
  | .probe i =>
    if live then { s with scanner := .spawn i }
    else { s with scanner := .probe_delay i }
  | .spawn i => { s with scanner := .probe_delay i, workers := s.workers ++ [.at_socket] }
  | .probe_delay i => { s with scanner := .loop_test (i - 1) }
  | .end_check => { s with scanner := .cycle_delay }
  | .cycle_delay => { s with scanner := .cycle_check }

/-- One step of the system; `none` when the action names a worker that does
not exist or has terminated. -/
def step (c : ScanConfig) (s : Sys) : Action → Option Sys
  | .scanner live => some (scanner_step c s live)
  | .worker k ok =>
    match s.workers[k]? with
    | none => none
    | some w =>
      match worker_step s.server_found ok w with
      | none => none
      | some (f, w1) => some { s with server_found := f, workers := s.workers.set k w1 }

/-- The state reached by a schedule. -/
def run (c : ScanConfig) : Sys → List Action → Option Sys
  | s, [] => some s
  | s, a :: as =>
    match step c s a with
    | none => none
    | some s1 => run c s1 as

/-- The system when `scan_network` is entered: flag false (line 23), no worker. -/
def sys_init : Sys := ⟨false, .cycle_check, []⟩

/-- A worker that has set the flag and not yet reset it. -/
def WPc.holds : WPc → Bool
  | .at_recv => true
  | .at_close c => c
  | .at_release c => c
  | _ => false

/-- A worker that has not terminated. -/
def WPc.alive : WPc → Bool
  | .done => false
  | _ => true

/-- At most one worker alive. -/
def solo (s : Sys) : Prop :=
  (s.workers.filter WPc.alive).length ≤ 1

instance (s : Sys) : Decidable (solo s) := by
  unfold solo; infer_instance

/-- At most one worker alive in every state a schedule goes through. -/
def one_at_a_time (c : ScanConfig) : Sys → List Action → Bool
  | s, [] => decide (solo s)
  | s, a :: as =>
    decide (solo s) &&
    match step c s a with
    | none => true
    | some s1 => one_at_a_time c s1 as

/-- The calls of one gate pulse (lines 236-238). -/
def gate_pulse : List Event :=
  [.gpio_set_level GPIO_GATE_PIN 1, .vTaskDelay GATE_OPEN_DURATION,
   .gpio_set_level GPIO_GATE_PIN 0]

/-- Error numbers as lwIP defines them (`EWOULDBLOCK` is `EAGAIN`). -/
def platform_lwip : Platform := ⟨11, 11⟩

/-- The body of `gpio_init` (lines 310-323): the pin is configured as an output
and driven low. -/
def gpio_init (w : World) : World × List Event :=
  (gpio_set_level w 0, [.gpio_config GPIO_GATE_PIN, .gpio_set_level GPIO_GATE_PIN 0])

/-- The state a worker starts in once `app_main` has run `gpio_init`: the gate
is low whatever its level was before; the buffer is zeroed here, and
`server_found` is as given. -/
def world_idle (server_found : Bool) : World :=
  (gpio_init ⟨server_found, 1, List.replicate BUFFER_SIZE 0⟩).1

/-- The descriptors closed, in order. -/
def closes_of : List Event → List Int
  | [] => []
  | .close fd :: es => fd :: closes_of es
  | _ :: es => closes_of es

/-- The gate is low whenever `recv` is called, starting from level `g`. -/
def low_at_reads (g : Nat) : List Event → Bool
  | [] => true
  | .recv _ _ :: es => decide (g = 0) && low_at_reads g es
  | .gpio_set_level pin level :: es =>
    low_at_reads (if pin = GPIO_GATE_PIN then level else g) es
  | _ :: es => low_at_reads g es

/-- Reads a decimal numeral back (used to tell formatted addresses apart). -/
def parse_dec (s : List Byte) : Nat :=
  s.foldl (fun acc b => 10 * acc + (b.val - 48)) 0

/-- Every call of the prober in the trace comes right after a read of
`server_found` that gave false. -/
def guarded (es : List Event) : Prop :=
  ∀ pre ip post, es = pre ++ .quick_ping_ip ip :: post →
    ∃ pre', pre = pre' ++ [.read_server_found false]

/-- The connection attempt of a probe failed (refused, reset, unreachable): an
error is pending on the socket. -/
def ProbeEnv.attempt_failed (t : ProbeEnv) : Prop :=
  t.so_error ≠ 0

instance (t : ProbeEnv) : Decidable t.attempt_failed := by
  unfold ProbeEnv.attempt_failed; infer_instance

/-- An environment in which the flag always reads false and every probe times
out (`select` returns 0). -/
def env_quiet : ScanEnv := ⟨fun _ => false, fun _ => ⟨3, -1, 0, false, 0⟩⟩

/-- An environment in which a worker sets the flag between the scanner's third
and fourth read of it; every probe times out. -/
def env_claim_mid : ScanEnv := ⟨fun k => decide (k = 3), fun _ => ⟨3, -1, 0, false, 0⟩⟩

/-- A probe whose connection attempt is refused within the timeout: `connect`
on the non-blocking socket returned -1, the refusal arrived, and `select`
reports the socket in the write set with the error ECONNREFUSED (111 in lwIP)
pending on it. -/
def probe_refused : ProbeEnv := ⟨3, -1, 1, true, 111⟩

/-- A schedule on the configured range: both .254 and .253 answer the probe,
and the worker created for .254 has not finished `connect` when .253 is
probed. -/
def race_schedule : List Action :=
  [ .scanner false,     -- line 275: flag false, enter the pass
    .scanner false,     -- line 277: 254 >= 250
    .scanner false,     -- line 279: flag false
    .scanner true,      -- line 287: .254 is live
    .scanner false,     -- line 290: worker 0 created
    .scanner false,     -- line 297: delay, i = 253
    .scanner false,     -- line 277: 253 >= 250
    .scanner false,     -- line 279: flag still false
    .scanner true,      -- line 287: .253 is live
    .scanner false,     -- line 290: worker 1 created
    .worker 0 true,     -- worker 0: socket ok
    .worker 0 true,     -- worker 0: connect ok
    .worker 1 true,     -- worker 1: socket ok
    .worker 1 true,     -- worker 1: connect ok
    .worker 0 true,     -- worker 0: server_found = true
    .worker 1 true ]    -- worker 1: server_found = true

/-- The continuation of `race_schedule` in which the peer of worker 0 closes:
worker 0 leaves its loop, closes, and resets the flag. -/
def race_teardown : List Action :=
  [ .worker 0 false, .worker 0 true, .worker 0 true ]

/-- A schedule with one worker: .254 answers the probe and its worker connects
and sets the flag. -/
def solo_schedule : List Action :=
  [ .scanner false, .scanner false, .scanner false, .scanner true, .scanner false,
    .worker 0 true, .worker 0 true, .worker 0 true ]

/-- While the flag is set some worker holds it. -/
def holder_inv (s : Sys) : Prop :=
  s.server_found = true → ∃ w ∈ s.workers, w.holds = true

/-- While some worker holds the flag it is set. -/
def flag_inv (s : Sys) : Prop :=
  (∃ w ∈ s.workers, w.holds = true) → s.server_found = true

/-! ## Theorems -/

/-! ### C strings and the token buffer -/

theorem cbytes_GATE_CMD : cbytes GATE_CMD = [71, 65, 84, 69] := by decide

theorem cbytes_SERVER_ID : cbytes SERVER_ID = [49, 50, 51, 52, 53, 54] := by decide

theorem store_token_terminated (buffer bytes : List Byte) (h : bytes.length < buffer.length) :
    store_token buffer bytes bytes.length
      = bytes ++ 0 :: buffer.drop (bytes.length + 1) := by
  unfold store_token
  rw [List.take_length, List.set_append]
  simp only [lt_self_iff_false, if_false, Nat.sub_self]
  rw [List.drop_eq_getElem_cons h]
  rfl

theorem strcmp_terminated (xs rest ys : List Byte) (hy : ∀ b ∈ ys, b ≠ 0) :
    strcmp (xs ++ 0 :: rest) (ys ++ [0]) = 0 ↔ xs.takeWhile (fun b => b ≠ 0) = ys := by
  induction xs generalizing ys with
  | nil =>
    cases ys with
    | nil => simp [strcmp]
    | cons y ys =>
      have hy0 : y ≠ 0 := hy y (List.mem_cons_self _ _)
      have : (y : Nat) ≠ 0 := fun h => hy0 (Fin.ext h)
      simp [strcmp, Ne.symm hy0]
      omega
  | cons x xs ih =>
    cases ys with
    | nil =>
      by_cases hx : x = 0
      · simp [strcmp, hx]
      · have : (x : Nat) ≠ 0 := fun h => hx (Fin.ext h)
        simp [strcmp, hx, List.takeWhile]
        omega
    | cons y ys =>
      have hy0 : y ≠ 0 := hy y (List.mem_cons_self _ _)
      by_cases hxy : x = y
      · subst hxy
        have ih2 := ih ys (fun b hb => hy b (List.mem_cons_of_mem _ hb))
        simp [strcmp, hy0, List.takeWhile, ih2]
      · have hv : (x : Nat) ≠ (y : Nat) := fun h => hxy (Fin.ext h)
        have hne : (x.val : Int) - (y.val : Int) ≠ 0 := by omega
        by_cases hx : x = 0
        · subst hx
          have hy1 : (0 : Byte) ≠ y := hxy
          simp [strcmp, hy1, List.takeWhile]
          simpa using hne
        · simp [strcmp, hxy, hx, List.takeWhile]
          simpa using hne

theorem c_string_of_nul_free (bytes : List Byte) (h : ∀ b ∈ bytes, b ≠ 0) :
    c_string_of bytes = bytes := by
  unfold c_string_of
  rw [List.takeWhile_eq_self_iff]
  intro b hb
  simpa using h b hb

theorem strcmp_token (buffer bytes : List Byte) (lit : String)
    (h : bytes.length < buffer.length) (hl : ∀ b ∈ cbytes lit, b ≠ 0) :
    strcmp (store_token buffer bytes bytes.length) (cstr lit) = 0
      ↔ c_string_of bytes = cbytes lit := by
  rw [store_token_terminated buffer bytes h]
  exact strcmp_terminated bytes _ (cbytes lit) hl

theorem GATE_CMD_nul_free : ∀ b ∈ cbytes GATE_CMD, b ≠ 0 := by
  intro b hb
  rw [cbytes_GATE_CMD] at hb
  simp only [List.mem_cons, List.mem_singleton, List.not_mem_nil, or_false] at hb
  rcases hb with h | h | h | h <;> subst h <;> decide

theorem SERVER_ID_nul_free : ∀ b ∈ cbytes SERVER_ID, b ≠ 0 := by
  intro b hb
  rw [cbytes_SERVER_ID] at hb
  simp only [List.mem_cons, List.mem_singleton, List.not_mem_nil, or_false] at hb
  rcases hb with h | h | h | h | h | h <;> subst h <;> decide

/-- What a round of the loop does with a non-empty read, in terms of the C
string in the buffer. -/
theorem recv_iter_data (P : Platform) (w : World) (bytes : List Byte)
    (hpos : 0 < bytes.length) (hfit : bytes.length < w.buffer.length) :
    recv_iter P (.data bytes) w =
      if c_string_of bytes = cbytes SERVER_ID then
        (.continue_, { w with buffer := store_token w.buffer bytes bytes.length }, [])
      else if c_string_of bytes = cbytes GATE_CMD then
        (.continue_, { w with buffer := store_token w.buffer bytes bytes.length, gate := 0 },
          gate_pulse)
      else
        (.continue_, { w with buffer := store_token w.buffer bytes bytes.length }, []) := by
  have hlen : (0 : Int) < (bytes.length : Int) := by exact_mod_cast hpos
  simp only [recv_iter, RecvResult.data, gt_iff_lt, hlen, if_true, Int.toNat_ofNat,
    strcmp_token w.buffer bytes SERVER_ID hfit SERVER_ID_nul_free,
    strcmp_token w.buffer bytes GATE_CMD hfit GATE_CMD_nul_free, gpio_set_level, gate_pulse]

theorem world_idle_buffer (b : Bool) : (world_idle b).buffer.length = BUFFER_SIZE := by
  simp [world_idle, gpio_init, gpio_set_level]

/-! ### C1: command classification -/

/-- C1 as stated fails: a read of six bytes, `GATE` followed by a zero byte and
one more byte, is not equal to the gate-open string and still pulses the gate. -/
theorem gate_pulse_on_bytes_after_nul :
    1 ≤ (cbytes "GATE" ++ [0, 88]).length ∧ (cbytes "GATE" ++ [0, 88]).length ≤ 127 ∧
    cbytes "GATE" ++ [0, 88] ≠ cbytes GATE_CMD ∧
    (recv_iter platform_lwip (.data (cbytes "GATE" ++ [0, 88])) (world_idle true)).2.2
      = gate_pulse := by
  decide

/-- C1 (amended): for every read of 1 to 127 bytes the worker pulses the gate if
and only if the bytes before the first zero byte (all of them when there is
none) equal GATE_CMD; so a read without a zero byte pulses the gate if and only
if it equals GATE_CMD byte for byte.  In every other case, and for SERVER_ID,
no call is made and the gate level is unchanged. -/
theorem gate_pulse_iff_c_string_eq (P : Platform) (w : World) (bytes : List Byte)
    (hbuf : w.buffer.length = BUFFER_SIZE)
    (hpos : 1 ≤ bytes.length) (hmax : bytes.length ≤ 127) :
    ((recv_iter P (.data bytes) w).2.2 = gate_pulse
        ↔ c_string_of bytes = cbytes GATE_CMD) ∧
    ((∀ b ∈ bytes, b ≠ 0) →
        ((recv_iter P (.data bytes) w).2.2 = gate_pulse ↔ bytes = cbytes GATE_CMD)) ∧
    (c_string_of bytes ≠ cbytes GATE_CMD →
        (recv_iter P (.data bytes) w).2.2 = [] ∧
        (recv_iter P (.data bytes) w).2.1.gate = w.gate) ∧
    (bytes = cbytes SERVER_ID → (recv_iter P (.data bytes) w).2.2 = []) := by
  have hfit : bytes.length < w.buffer.length := by
    rw [hbuf]; simp only [BUFFER_SIZE]; omega
  have hne : cbytes SERVER_ID ≠ cbytes GATE_CMD := by
    rw [cbytes_SERVER_ID, cbytes_GATE_CMD]; decide
  have key : (recv_iter P (.data bytes) w).2.2 = gate_pulse
      ↔ c_string_of bytes = cbytes GATE_CMD := by
    rw [recv_iter_data P w bytes hpos hfit]
    by_cases h1 : c_string_of bytes = cbytes SERVER_ID
    · have h2 : c_string_of bytes ≠ cbytes GATE_CMD := by rw [h1]; exact hne
      simp [h1, hne, gate_pulse]
    · by_cases h2 : c_string_of bytes = cbytes GATE_CMD
      · simp [h2, Ne.symm hne]
      · simp [h1, h2, gate_pulse]
  refine ⟨key, ?_, ?_, ?_⟩
  · intro hnul
    rw [key, c_string_of_nul_free bytes hnul]
  · intro h2
    rw [recv_iter_data P w bytes hpos hfit]
    by_cases h1 : c_string_of bytes = cbytes SERVER_ID
    · simp [h1]
    · simp [h1, h2]
  · intro hid
    rw [recv_iter_data P w bytes hpos hfit]
    have : c_string_of bytes = cbytes SERVER_ID := by
      rw [hid]; exact c_string_of_nul_free _ SERVER_ID_nul_free
    simp [this]

theorem gate_pulse_iff_c_string_eq_witness :
    (world_idle true).buffer.length = BUFFER_SIZE ∧
    1 ≤ (cbytes GATE_CMD).length ∧ (cbytes GATE_CMD).length ≤ 127 ∧
    (((recv_iter platform_lwip (.data (cbytes GATE_CMD)) (world_idle true)).2.2 = gate_pulse
        ↔ c_string_of (cbytes GATE_CMD) = cbytes GATE_CMD) ∧
    ((∀ b ∈ cbytes GATE_CMD, b ≠ 0) →
        ((recv_iter platform_lwip (.data (cbytes GATE_CMD)) (world_idle true)).2.2 = gate_pulse
          ↔ cbytes GATE_CMD = cbytes GATE_CMD)) ∧
    (c_string_of (cbytes GATE_CMD) ≠ cbytes GATE_CMD →
        (recv_iter platform_lwip (.data (cbytes GATE_CMD)) (world_idle true)).2.2 = [] ∧
        (recv_iter platform_lwip (.data (cbytes GATE_CMD)) (world_idle true)).2.1.gate
          = (world_idle true).gate) ∧
    (cbytes GATE_CMD = cbytes SERVER_ID →
        (recv_iter platform_lwip (.data (cbytes GATE_CMD)) (world_idle true)).2.2 = [])) :=
  ⟨world_idle_buffer true, by decide, by decide,
    gate_pulse_iff_c_string_eq platform_lwip (world_idle true) (cbytes GATE_CMD)
      (world_idle_buffer true) (by decide) (by decide)⟩


/-! ### The receive loop -/

theorem recv_iter_flow (P : Platform) (r : RecvResult) (w : World) :
    (recv_iter P r w).1 = .break_ ↔ r.ends_loop P := by
  unfold recv_iter RecvResult.ends_loop
  by_cases h1 : r.len > 0
  · have h2 : r.len ≠ 0 := by omega
    have h3 : ¬ r.len < 0 := by omega
    simp only [h1, if_true, h2, h3, false_and, or_false, iff_false]
    split_ifs <;> simp
  · by_cases h2 : r.len = 0
    · simp [h2]
    · have h3 : r.len < 0 := by omega
      simp only [h1, h2, if_false, h3, true_and, false_or]
      split_ifs with h4
      · simp [h4]
      · simp only [false_iff]
        exact fun h => h4 h

/-- A round of the loop leaves the flag alone, and either makes no call and
leaves the gate as it was, or makes the three calls of a pulse and leaves the
gate low. -/
theorem recv_iter_effect (P : Platform) (r : RecvResult) (w : World) :
    (recv_iter P r w).2.1.server_found = w.server_found ∧
    (((recv_iter P r w).2.2 = [] ∧ (recv_iter P r w).2.1.gate = w.gate) ∨
     ((recv_iter P r w).2.2 = gate_pulse ∧ (recv_iter P r w).2.1.gate = 0)) := by
  unfold recv_iter
  by_cases h1 : r.len > 0
  · simp only [h1, if_true]
    by_cases h2 : strcmp (store_token w.buffer r.bytes r.len.toNat) (cstr SERVER_ID) = 0
    · simp [h2]
    · by_cases h3 : strcmp (store_token w.buffer r.bytes r.len.toNat) (cstr GATE_CMD) = 0
      · simp [h2, h3, gpio_set_level, gate_pulse]
      · simp [h2, h3]
  · simp only [h1, if_false]
    split_ifs <;> simp

theorem recv_loop_nil (P : Platform) (sock : Int) (w : World) :
    recv_loop P sock [] w = (.continue_, w, [.recv sock (BUFFER_SIZE - 1)]) := rfl

theorem recv_loop_cons (P : Platform) (sock : Int) (r : RecvResult) (rs : List RecvResult)
    (w : World) :
    recv_loop P sock (r :: rs) w =
      if r.ends_loop P then
        (.break_, (recv_iter P r w).2.1, .recv sock (BUFFER_SIZE - 1) :: (recv_iter P r w).2.2)
      else
        ((recv_loop P sock rs (recv_iter P r w).2.1).1,
         (recv_loop P sock rs (recv_iter P r w).2.1).2.1,
         .recv sock (BUFFER_SIZE - 1) :: (recv_iter P r w).2.2
           ++ (recv_loop P sock rs (recv_iter P r w).2.1).2.2) := by
  have hf := recv_iter_flow P r w
  rcases hri : recv_iter P r w with ⟨f, w1, es⟩
  rw [hri] at hf
  cases f with
  | break_ =>
    have : r.ends_loop P := hf.mp rfl
    simp [recv_loop, hri, this]
  | continue_ =>
    have : ¬ r.ends_loop P := fun h => by
      have := hf.mpr h
      cases this
    simp [recv_loop, hri, this]

theorem recv_loop_head (P : Platform) (sock : Int) (rs : List RecvResult) (w : World) :
    ∃ tl, (recv_loop P sock rs w).2.2 = .recv sock (BUFFER_SIZE - 1) :: tl := by
  cases rs with
  | nil => exact ⟨[], rfl⟩
  | cons r rs =>
    rw [recv_loop_cons]
    split_ifs
    · exact ⟨_, rfl⟩
    · exact ⟨_, rfl⟩

theorem recv_loop_server_found (P : Platform) (sock : Int) (rs : List RecvResult) :
    ∀ w : World, (recv_loop P sock rs w).2.1.server_found = w.server_found := by
  induction rs with
  | nil => intro w; rfl
  | cons r rs ih =>
    intro w
    rw [recv_loop_cons]
    split_ifs
    · exact (recv_iter_effect P r w).1
    · exact (ih _).trans (recv_iter_effect P r w).1

theorem recv_loop_break_iff (P : Platform) (sock : Int) (rs : List RecvResult) :
    ∀ w : World, (recv_loop P sock rs w).1 = .break_ ↔ ∃ r ∈ rs, r.ends_loop P := by
  induction rs with
  | nil => intro w; simp [recv_loop_nil]
  | cons r rs ih =>
    intro w
    rw [recv_loop_cons]
    by_cases h : r.ends_loop P
    · simp [h]
    · simp [h, ih]

theorem closes_of_append (a b : List Event) :
    closes_of (a ++ b) = closes_of a ++ closes_of b := by
  induction a with
  | nil => rfl
  | cons e es ih => cases e <;> simp [closes_of, ih]

theorem gate_level_append (a b : List Event) :
    ∀ g, gate_level g (a ++ b) = gate_level (gate_level g a) b := by
  induction a with
  | nil => intro g; rfl
  | cons e es ih => intro g; cases e <;> simp [gate_level, ih]

theorem low_at_reads_append (a b : List Event) :
    ∀ g, low_at_reads g (a ++ b) = (low_at_reads g a && low_at_reads (gate_level g a) b) := by
  induction a with
  | nil => intro g; simp [low_at_reads, gate_level]
  | cons e es ih => intro g; cases e <;> simp [low_at_reads, gate_level, ih, Bool.and_assoc]

/-- Reading `low_at_reads` off the trace: before each `recv` the gate is low. -/
theorem low_at_reads_split (es : List Event) :
    ∀ g pre fd n post, low_at_reads g es = true → es = pre ++ .recv fd n :: post →
      gate_level g pre = 0 := by
  intro g pre fd n post h heq
  subst heq
  rw [low_at_reads_append] at h
  simp only [low_at_reads, Bool.and_eq_true, decide_eq_true_eq] at h
  exact h.2.1

theorem recv_loop_closes (P : Platform) (sock : Int) (rs : List RecvResult) :
    ∀ w : World, closes_of (recv_loop P sock rs w).2.2 = [] := by
  induction rs with
  | nil => intro w; rfl
  | cons r rs ih =>
    intro w
    rw [recv_loop_cons]
    rcases (recv_iter_effect P r w).2 with ⟨he, _⟩ | ⟨he, _⟩ <;>
      split_ifs <;> simp [he, closes_of, closes_of_append, ih, gate_pulse]

/-- Through the receive loop the gate is low at each `recv` and at the end, and
it is driven high as often as it is driven low. -/
theorem recv_loop_gate (P : Platform) (sock : Int) (rs : List RecvResult) :
    ∀ w : World, w.gate = 0 →
      (recv_loop P sock rs w).2.1.gate = 0 ∧
      low_at_reads 0 (recv_loop P sock rs w).2.2 = true ∧
      gate_level 0 (recv_loop P sock rs w).2.2 = 0 ∧
      (recv_loop P sock rs w).2.2.count (.gpio_set_level GPIO_GATE_PIN 1)
        = (recv_loop P sock rs w).2.2.count (.gpio_set_level GPIO_GATE_PIN 0) := by
  induction rs with
  | nil => intro w h0; simp [recv_loop_nil, h0, low_at_reads, gate_level]
  | cons r rs ih =>
    intro w h0
    rw [recv_loop_cons]
    rcases (recv_iter_effect P r w).2 with ⟨he, hg⟩ | ⟨he, hg⟩
    · rw [h0] at hg
      obtain ⟨i1, i2, i3, i4⟩ := ih _ hg
      split_ifs
      · simp [he, hg, low_at_reads, gate_level]
      · simp [he, low_at_reads, gate_level, i1, i2, i3, i4]
    · obtain ⟨i1, i2, i3, i4⟩ := ih _ hg
      split_ifs
      · simp [he, hg, low_at_reads, gate_level, gate_pulse, GPIO_GATE_PIN]
      · simp [he, low_at_reads, gate_level, gate_pulse, low_at_reads_append,
          gate_level_append, i1, i2, i3, List.count_append,
          List.count_cons]
        simpa [GPIO_GATE_PIN] using i4

theorem recv_loop_recv_size (P : Platform) (sock : Int) (rs : List RecvResult) :
    ∀ (w : World) (fd : Int) (n : Nat), Event.recv fd n ∈ (recv_loop P sock rs w).2.2 →
      fd = sock ∧ n = BUFFER_SIZE - 1 := by
  induction rs with
  | nil =>
    intro w fd n h
    simpa [recv_loop_nil] using h
  | cons r rs ih =>
    intro w fd n h
    rw [recv_loop_cons] at h
    rcases (recv_iter_effect P r w).2 with ⟨he, _⟩ | ⟨he, _⟩ <;> split_ifs at h <;>
      simp [he, gate_pulse] at h
    · exact h
    · rcases h with h | h
      · exact h
      · exact ih _ _ _ h
    · exact h
    · rcases h with h | h
      · exact h
      · exact ih _ _ _ h

/-- The worker once `socket` and `connect` have succeeded. -/
theorem tcp_connection_task_connected (P : Platform) (ip : List Byte) (env : WorkerEnv)
    (w : World) (hs : 0 ≤ env.sock) (hc : env.connect_rc = 0) :
    tcp_connection_task P ip env w =
      if (recv_loop P env.sock env.reads { w with server_found := true }).1 = .break_ then
        (.terminated,
         { (recv_loop P env.sock env.reads { w with server_found := true }).2.1 with
            server_found := false },
         [.socket, .connect env.sock ip SERVER_PORT, .set_server_found true] ++
           (recv_loop P env.sock env.reads { w with server_found := true }).2.2 ++
           [.close env.sock, .set_server_found false, .free_ip, .vTaskDelete])
      else
        (.in_recv, (recv_loop P env.sock env.reads { w with server_found := true }).2.1,
         [.socket, .connect env.sock ip SERVER_PORT, .set_server_found true] ++
           (recv_loop P env.sock env.reads { w with server_found := true }).2.2) := by
  have hs2 : ¬ env.sock < 0 := by omega
  unfold tcp_connection_task
  simp only [hs2, hc, if_true, if_false]
  rcases recv_loop P env.sock env.reads { w with server_found := true } with ⟨f, w2, es⟩
  cases f <;> simp

/-- The worker when `socket` succeeded and `connect` failed. -/
theorem tcp_connection_task_refused (P : Platform) (ip : List Byte) (env : WorkerEnv)
    (w : World) (hs : 0 ≤ env.sock) (hc : env.connect_rc ≠ 0) :
    tcp_connection_task P ip env w =
      (.terminated, { w with server_found := false },
        [.socket, .connect env.sock ip SERVER_PORT, .close env.sock,
         .set_server_found false, .free_ip, .vTaskDelete]) := by
  have hs2 : ¬ env.sock < 0 := by omega
  unfold tcp_connection_task
  simp only [hs2, hc, if_false]

/-- The worker when `socket` failed. -/
theorem tcp_connection_task_no_socket (P : Platform) (ip : List Byte) (env : WorkerEnv)
    (w : World) (hs : env.sock < 0) :
    tcp_connection_task P ip env w = (.terminated, w, [.socket, .free_ip, .vTaskDelete]) := by
  unfold tcp_connection_task
  simp only [hs, if_true]

/-- Over a whole run of the worker the gate is low at each `recv`, and it is
driven high as often as it is driven low. -/
theorem tcp_connection_task_gate (P : Platform) (ip : List Byte) (env : WorkerEnv)
    (w : World) (h0 : w.gate = 0) :
    low_at_reads 0 (tcp_connection_task P ip env w).2.2 = true ∧
    gate_level 0 (tcp_connection_task P ip env w).2.2 = 0 ∧
    (tcp_connection_task P ip env w).2.1.gate = 0 ∧
    (tcp_connection_task P ip env w).2.2.count (.gpio_set_level GPIO_GATE_PIN 1)
      = (tcp_connection_task P ip env w).2.2.count (.gpio_set_level GPIO_GATE_PIN 0) := by
  by_cases hs : env.sock < 0
  · rw [tcp_connection_task_no_socket P ip env w hs]
    simp [low_at_reads, gate_level, h0]
  · have hs2 : 0 ≤ env.sock := by omega
    by_cases hc : env.connect_rc = 0
    · rw [tcp_connection_task_connected P ip env w hs2 hc]
      obtain ⟨i1, i2, i3, i4⟩ :=
        recv_loop_gate P env.sock env.reads { w with server_found := true } h0
      split_ifs <;>
        simp [low_at_reads, gate_level, low_at_reads_append, gate_level_append,
          i1, i2, i3, i4, List.count_append, List.count_cons]
    · rw [tcp_connection_task_refused P ip env w hs2 hc]
      simp [low_at_reads, gate_level, h0]

/-! ### C8: what ends the receive loop -/

/-- C8: in the receive loop the read result alone decides continuation: a
zero-length read leaves the loop; a failed read with errno EAGAIN or
EWOULDBLOCK stays in the loop, changes nothing (no call, flag and gate as they
were) and is followed by another recv; a failed read with any other errno
leaves the loop; a non-empty read of any content stays in the loop. -/
theorem read_result_decides_continuation (P : Platform) (sock : Int) (r : RecvResult)
    (rs : List RecvResult) (w w' : World) :
    (recv_iter P r w).1 = (recv_iter P r w').1 ∧
    (r.len = 0 → (recv_iter P r w).1 = .break_) ∧
    (r.len < 0 → (r.errno = P.EAGAIN ∨ r.errno = P.EWOULDBLOCK) →
        recv_iter P r w = (.continue_, w, []) ∧
        ∃ tl, (recv_loop P sock (r :: rs) w).2.2
          = .recv sock 127 :: .recv sock 127 :: tl) ∧
    (r.len < 0 → r.errno ≠ P.EAGAIN → r.errno ≠ P.EWOULDBLOCK →
        (recv_iter P r w).1 = .break_) ∧
    (0 < r.len → (recv_iter P r w).1 = .continue_ ∧
        ∃ tl, (recv_loop P sock (r :: rs) w).2.2
          = .recv sock 127 :: (recv_iter P r w).2.2 ++ .recv sock 127 :: tl) := by
  have hflow : ∀ v : World, (recv_iter P r v).1 = if r.ends_loop P then .break_ else .continue_ := by
    intro v
    have h := recv_iter_flow P r v
    by_cases he : r.ends_loop P
    · simp [he, h.mpr he]
    · have : (recv_iter P r v).1 ≠ .break_ := fun hb => he (h.mp hb)
      simp only [he, if_false]
      cases hf : (recv_iter P r v).1 with
      | continue_ => rfl
      | break_ => exact absurd hf this
  refine ⟨by rw [hflow w, hflow w'], ?_, ?_, ?_, ?_⟩
  · intro h0
    exact (recv_iter_flow P r w).mpr (Or.inl h0)
  · intro hneg hwb
    have hne : ¬ r.ends_loop P := by
      unfold RecvResult.ends_loop
      rintro (h | ⟨_, h1, h2⟩)
      · omega
      · rcases hwb with h | h
        · exact h1 h
        · exact h2 h
    have h1 : ¬ r.len > 0 := by omega
    have h2 : r.len ≠ 0 := by omega
    have h3 : ¬ (r.errno ≠ P.EAGAIN ∧ r.errno ≠ P.EWOULDBLOCK) := by
      rintro ⟨a, b⟩
      rcases hwb with h | h
      · exact a h
      · exact b h
    have hit : recv_iter P r w = (.continue_, w, []) := by
      unfold recv_iter
      simp only [h1, h2, h3, if_false]
    refine ⟨hit, ?_⟩
    obtain ⟨tl, htl⟩ := recv_loop_head P sock rs w
    refine ⟨tl, ?_⟩
    rw [recv_loop_cons]
    simp only [hne, if_false, hit, List.nil_append, htl]
    rfl
  · intro hneg ha hb
    exact (recv_iter_flow P r w).mpr (Or.inr ⟨hneg, ha, hb⟩)
  · intro hpos
    have hne : ¬ r.ends_loop P := by
      unfold RecvResult.ends_loop
      rintro (h | ⟨h, _⟩) <;> omega
    refine ⟨by rw [hflow w]; simp [hne], ?_⟩
    obtain ⟨tl, htl⟩ := recv_loop_head P sock rs (recv_iter P r w).2.1
    refine ⟨tl, ?_⟩
    rw [recv_loop_cons]
    simp only [hne, if_false, htl]
    rfl

theorem read_result_decides_continuation_witness :
    (recv_iter platform_lwip .closed (world_idle true)).1 = .break_ ∧
    recv_iter platform_lwip (.error 11) (world_idle true)
      = (.continue_, world_idle true, []) ∧
    (recv_iter platform_lwip (.error 104) (world_idle true)).1 = .break_ ∧
    (recv_iter platform_lwip (.data (cbytes GATE_CMD)) (world_idle true)).1 = .continue_ :=
  ⟨(read_result_decides_continuation platform_lwip 3 .closed [] (world_idle true)
      (world_idle true)).2.1 rfl,
   ((read_result_decides_continuation platform_lwip 3 (.error 11) [] (world_idle true)
      (world_idle true)).2.2.1 (by decide) (by decide)).1,
   (read_result_decides_continuation platform_lwip 3 (.error 104) [] (world_idle true)
      (world_idle true)).2.2.2.1 (by decide) (by decide) (by decide),
   ((read_result_decides_continuation platform_lwip 3 (.data (cbytes GATE_CMD)) []
      (world_idle true) (world_idle true)).2.2.2.2 (by decide)).1⟩

/-! ### C6: the gate pulse -/

/-- C6: a GateOpen token makes exactly the calls set-high, delay of
GATE_OPEN_DURATION = 500 ms, set-low, in that order, and the next recv comes
after the set-low; so in every run of the worker started with the gate low, the
gate is low at each recv, and it is driven high as often as it is driven low. -/
theorem gate_pulse_then_idle (P : Platform) (ip : List Byte) (env : WorkerEnv) (w : World)
    (rs : List RecvResult) (hbuf : w.buffer.length = BUFFER_SIZE) (h0 : w.gate = 0) :
    GATE_OPEN_DURATION = 500 ∧
    (recv_iter P (.data (cbytes GATE_CMD)) w).2.2
      = [.gpio_set_level GPIO_GATE_PIN 1, .vTaskDelay GATE_OPEN_DURATION,
         .gpio_set_level GPIO_GATE_PIN 0] ∧
    (∃ tl, (recv_loop P env.sock (.data (cbytes GATE_CMD) :: rs) w).2.2
      = [.recv env.sock 127, .gpio_set_level GPIO_GATE_PIN 1,
         .vTaskDelay GATE_OPEN_DURATION, .gpio_set_level GPIO_GATE_PIN 0,
         .recv env.sock 127] ++ tl) ∧
    (∀ pre fd n post, (tcp_connection_task P ip env w).2.2 = pre ++ .recv fd n :: post →
      gate_level w.gate pre = 0) ∧
    (tcp_connection_task P ip env w).2.2.count (.gpio_set_level GPIO_GATE_PIN 1)
      = (tcp_connection_task P ip env w).2.2.count (.gpio_set_level GPIO_GATE_PIN 0) := by
  have hfit : (cbytes GATE_CMD).length < w.buffer.length := by
    rw [hbuf, cbytes_GATE_CMD]; decide
  have hpos : 0 < (cbytes GATE_CMD).length := by rw [cbytes_GATE_CMD]; decide
  have hcs : c_string_of (cbytes GATE_CMD) = cbytes GATE_CMD :=
    c_string_of_nul_free _ GATE_CMD_nul_free
  have hne : cbytes GATE_CMD ≠ cbytes SERVER_ID := by
    rw [cbytes_SERVER_ID, cbytes_GATE_CMD]; decide
  have hev : (recv_iter P (.data (cbytes GATE_CMD)) w).2.2 = gate_pulse := by
    rw [recv_iter_data P w _ hpos hfit]
    simp [hcs, hne]
  obtain ⟨g1, g2, g3, g4⟩ := tcp_connection_task_gate P ip env w h0
  refine ⟨rfl, hev, ?_, ?_, g4⟩
  · have hnot : ¬ (RecvResult.data (cbytes GATE_CMD)).ends_loop P := by
      have hl : (RecvResult.data (cbytes GATE_CMD)).len = 4 := by
        simp [RecvResult.data, cbytes_GATE_CMD]
      unfold RecvResult.ends_loop
      rw [hl]
      rintro (h | ⟨h, _⟩) <;> omega
    obtain ⟨tl, htl⟩ := recv_loop_head P env.sock rs
      (recv_iter P (.data (cbytes GATE_CMD)) w).2.1
    refine ⟨tl, ?_⟩
    rw [recv_loop_cons]
    simp only [hnot, if_false, hev, htl, gate_pulse]
    rfl
  · intro pre fd n post hsplit
    rw [h0]
    exact low_at_reads_split _ 0 pre fd n post g1 hsplit

theorem gate_pulse_then_idle_witness :
    (world_idle true).buffer.length = BUFFER_SIZE ∧ (world_idle true).gate = 0 ∧
    (tcp_connection_task platform_lwip (cbytes "192.168.1.254")
        ⟨3, 0, [.data (cbytes GATE_CMD), .closed]⟩ (world_idle true)).2.2.count
        (.gpio_set_level GPIO_GATE_PIN 1)
      = (tcp_connection_task platform_lwip (cbytes "192.168.1.254")
        ⟨3, 0, [.data (cbytes GATE_CMD), .closed]⟩ (world_idle true)).2.2.count
        (.gpio_set_level GPIO_GATE_PIN 0) :=
  ⟨world_idle_buffer true, rfl,
    (gate_pulse_then_idle platform_lwip (cbytes "192.168.1.254")
      ⟨3, 0, [.data (cbytes GATE_CMD), .closed]⟩ (world_idle true) []
      (world_idle_buffer true) rfl).2.2.2.2⟩

/-! ### C3: teardown -/

/-- C3: when the connection succeeded and some read ends the receive loop, the
worker terminates, closes its socket exactly once (the last calls are close,
the reset of the flag, free, vTaskDelete), and leaves server_found false and
the gate low. -/
theorem worker_teardown (P : Platform) (ip : List Byte) (env : WorkerEnv) (w : World)
    (hs : 0 ≤ env.sock) (hc : env.connect_rc = 0)
    (hend : ∃ r ∈ env.reads, r.ends_loop P) (h0 : w.gate = 0) :
    (tcp_connection_task P ip env w).1 = .terminated ∧
    closes_of (tcp_connection_task P ip env w).2.2 = [env.sock] ∧
    (∃ pre, (tcp_connection_task P ip env w).2.2
      = pre ++ [.close env.sock, .set_server_found false, .free_ip, .vTaskDelete]) ∧
    (tcp_connection_task P ip env w).2.1.server_found = false ∧
    (tcp_connection_task P ip env w).2.1.gate = 0 ∧
    gate_level w.gate (tcp_connection_task P ip env w).2.2 = 0 := by
  obtain ⟨g1, g2, g3, g4⟩ := tcp_connection_task_gate P ip env w h0
  have hb := (recv_loop_break_iff P env.sock env.reads { w with server_found := true }).mpr hend
  have hcl := recv_loop_closes P env.sock env.reads { w with server_found := true }
  refine ⟨?_, ?_, ?_, ?_, g3, by rw [h0]; exact g2⟩
  · rw [tcp_connection_task_connected P ip env w hs hc]
    simp [hb]
  · rw [tcp_connection_task_connected P ip env w hs hc]
    simp [hb, closes_of, closes_of_append, hcl]
  · rw [tcp_connection_task_connected P ip env w hs hc]
    simp only [hb, if_true]
    exact ⟨_, rfl⟩
  · rw [tcp_connection_task_connected P ip env w hs hc]
    simp [hb]

theorem worker_teardown_witness :
    (0 : Int) ≤ 3 ∧ (0 : Int) = 0 ∧
    (∃ r ∈ [RecvResult.data (cbytes GATE_CMD), RecvResult.closed],
      r.ends_loop platform_lwip) ∧
    (world_idle false).gate = 0 ∧
    (tcp_connection_task platform_lwip (cbytes "192.168.1.254")
        ⟨3, 0, [.data (cbytes GATE_CMD), .closed]⟩ (world_idle false)).1 = .terminated ∧
    closes_of (tcp_connection_task platform_lwip (cbytes "192.168.1.254")
        ⟨3, 0, [.data (cbytes GATE_CMD), .closed]⟩ (world_idle false)).2.2 = [3] ∧
    (tcp_connection_task platform_lwip (cbytes "192.168.1.254")
        ⟨3, 0, [.data (cbytes GATE_CMD), .closed]⟩ (world_idle false)).2.1.server_found
      = false :=
  have h := worker_teardown platform_lwip (cbytes "192.168.1.254")
    ⟨3, 0, [.data (cbytes GATE_CMD), .closed]⟩ (world_idle false)
    (by decide) rfl ⟨.closed, by simp, Or.inl rfl⟩ rfl
  ⟨by decide, rfl, ⟨.closed, by simp, Or.inl rfl⟩, rfl, h.1, h.2.1, h.2.2.2.1⟩

/-! ### C4: a failed connection -/

/-- C4 fails on the code: started with server_found true, a worker whose
socket was created and whose connect fails runs the common tail of the function
and leaves server_found false; a worker whose socket cannot be created leaves
it true. -/
theorem connect_failure_resets_server_found :
    tcp_connection_task platform_lwip (cbytes "192.168.1.254") ⟨3, -1, []⟩ (world_idle true)
      = (.terminated, world_idle false,
          [.socket, .connect 3 (cbytes "192.168.1.254") 20000, .close 3,
           .set_server_found false, .free_ip, .vTaskDelete]) ∧
    (world_idle true).server_found = true ∧
    tcp_connection_task platform_lwip (cbytes "192.168.1.254") ⟨-1, 0, []⟩ (world_idle true)
      = (.terminated, world_idle true, [.socket, .free_ip, .vTaskDelete]) := by
  decide

/-! ### Formatting addresses -/

theorem snprintf_s_d_fits (size : Nat) (s : List Byte) (d : Int)
    (h : (c_string_of s ++ cbytes (toString d)).length ≤ size - 1) :
    snprintf_s_d size s d = c_string_of s ++ cbytes (toString d) := by
  unfold snprintf_s_d
  exact List.take_of_length_le h

theorem snprintf_s_d_length (size : Nat) (s : List Byte) (d : Int) :
    (snprintf_s_d size s d).length ≤ size - 1 := by
  unfold snprintf_s_d
  rw [List.length_take]
  omega

theorem c_string_of_IP_PREFIX : c_string_of (cstr IP_PREFIX) = cbytes IP_PREFIX := by
  decide

set_option maxRecDepth 100000 in
theorem octet_decimal (n : Fin 256) :
    (cbytes (toString (n.val : Int))).length ≤ 3 ∧
    parse_dec (cbytes (toString (n.val : Int))) = n.val := by
  revert n
  decide

theorem octet_decimal_int (i : Int) (h0 : 0 ≤ i) (h1 : i ≤ 255) :
    (cbytes (toString i)).length ≤ 3 ∧ (parse_dec (cbytes (toString i)) : Int) = i := by
  have hlt : i.toNat < 256 := by omega
  have hi : ((⟨i.toNat, hlt⟩ : Fin 256).val : Int) = i := by
    simp only [Int.toNat_of_nonneg h0]
  have h := octet_decimal ⟨i.toNat, hlt⟩
  rw [hi] at h
  refine ⟨h.1, ?_⟩
  rw [h.2]
  exact hi

/-! ### C10: writes stay inside the buffers -/

theorem recv_iter_buffer (P : Platform) (r : RecvResult) (w : World) (hpos : 0 < r.len) :
    (recv_iter P r w).2.1.buffer = store_token w.buffer r.bytes r.len.toNat := by
  unfold recv_iter
  simp only [gt_iff_lt, hpos, if_true]
  split_ifs <;> rfl

/-- C10: a read asks for 127 bytes, so a read of positive length len has
1 <= len <= 127 < 128, the bytes and the terminator written at index len land
inside the 128-byte buffer (which keeps its size); and for 0 <= i <= 255 the
address formatted from the configured prefix has at most 13 bytes and is
stored in the 16-byte buffer without being cut. -/
theorem buffer_writes_in_bounds (P : Platform) (ip : List Byte) (env : WorkerEnv)
    (r : RecvResult) (w : World) (i : Int)
    (hbuf : w.buffer.length = BUFFER_SIZE) (hwf : r.wf (BUFFER_SIZE - 1))
    (hpos : 0 < r.len) (hi0 : 0 ≤ i) (hi : i ≤ 255) :
    (∀ fd n, Event.recv fd n ∈ (tcp_connection_task P ip env w).2.2 → n = 127) ∧
    (1 ≤ r.len ∧ r.len ≤ 127 ∧ r.len.toNat < BUFFER_SIZE) ∧
    (recv_iter P r w).2.1.buffer.length = BUFFER_SIZE ∧
    (recv_iter P r w).2.1.buffer.get? r.len.toNat = some 0 ∧
    (recv_iter P r w).2.1.buffer.take r.len.toNat = r.bytes ∧
    (cbytes IP_PREFIX ++ cbytes (toString i)).length ≤ 13 ∧
    snprintf_s_d IP_SIZE (cstr IP_PREFIX) i = cbytes IP_PREFIX ++ cbytes (toString i) ∧
    (snprintf_s_d IP_SIZE (cstr IP_PREFIX) i).length < IP_SIZE := by
  obtain ⟨hle, hlen⟩ := hwf
  have hlen2 := hlen hpos
  have hnat : r.len.toNat = r.bytes.length := by omega
  have hmax : r.bytes.length ≤ 127 := by
    simp only [BUFFER_SIZE] at hle
    omega
  have hfit : r.bytes.length < w.buffer.length := by
    rw [hbuf]; simp only [BUFFER_SIZE]; omega
  have hdec := (octet_decimal_int i hi0 hi).1
  have hp : (cbytes IP_PREFIX).length = 10 := by decide
  have hall : (cbytes IP_PREFIX ++ cbytes (toString i)).length ≤ 13 := by
    rw [List.length_append, hp]; omega
  have hsn : snprintf_s_d IP_SIZE (cstr IP_PREFIX) i
      = cbytes IP_PREFIX ++ cbytes (toString i) := by
    rw [← c_string_of_IP_PREFIX]
    apply snprintf_s_d_fits
    rw [c_string_of_IP_PREFIX]
    simp only [IP_SIZE]
    omega
  refine ⟨?_, ⟨by omega, by simp only [BUFFER_SIZE] at hle; omega, by
    rw [hnat]; simp only [BUFFER_SIZE]; omega⟩, ?_, ?_, ?_, hall, hsn, ?_⟩
  · intro fd n hmem
    by_cases hs : env.sock < 0
    · rw [tcp_connection_task_no_socket P ip env w hs] at hmem
      simp at hmem
    · have hs2 : 0 ≤ env.sock := by omega
      by_cases hc : env.connect_rc = 0
      · rw [tcp_connection_task_connected P ip env w hs2 hc] at hmem
        have key : Event.recv fd n ∈
            (recv_loop P env.sock env.reads { w with server_found := true }).2.2 := by
          split_ifs at hmem <;> simpa using hmem
        exact (recv_loop_recv_size P env.sock env.reads _ fd n key).2
      · rw [tcp_connection_task_refused P ip env w hs2 hc] at hmem
        simp at hmem
  · rw [recv_iter_buffer P r w hpos, hnat, store_token_terminated _ _ hfit]
    simp only [List.length_append, List.length_cons, List.length_drop]
    omega
  · rw [recv_iter_buffer P r w hpos, hnat, store_token_terminated _ _ hfit,
      List.get?_eq_getElem?, List.getElem?_append_right (le_refl _)]
    simp
  · rw [recv_iter_buffer P r w hpos, hnat, store_token_terminated _ _ hfit]
    simp
  · rw [hsn]
    simp only [IP_SIZE]
    omega

theorem buffer_writes_in_bounds_witness :
    (world_idle true).buffer.length = BUFFER_SIZE ∧
    (RecvResult.data (cbytes GATE_CMD)).wf (BUFFER_SIZE - 1) ∧
    0 < (RecvResult.data (cbytes GATE_CMD)).len ∧ (0 : Int) ≤ 254 ∧ (254 : Int) ≤ 255 ∧
    (recv_iter platform_lwip (.data (cbytes GATE_CMD)) (world_idle true)).2.1.buffer.get?
        (RecvResult.data (cbytes GATE_CMD)).len.toNat = some 0 ∧
    snprintf_s_d IP_SIZE (cstr IP_PREFIX) 254
      = cbytes IP_PREFIX ++ cbytes (toString (254 : Int)) :=
  have h := buffer_writes_in_bounds platform_lwip (cbytes "192.168.1.254") ⟨3, 0, []⟩
    (.data (cbytes GATE_CMD)) (world_idle true) 254
    (world_idle_buffer true) (by decide) (by decide) (by decide) (by decide)
  ⟨world_idle_buffer true, by decide, by decide, by decide, by decide,
    h.2.2.2.1, h.2.2.2.2.2.2.1⟩

/-! ### The scan loop -/

theorem descending_succ (i : Int) (n : Nat) :
    descending i (n + 1) = i :: descending (i - 1) n := by
  unfold descending
  rw [List.range_succ_eq_map]
  simp only [List.map_cons, List.map_map, Nat.cast_zero, sub_zero, List.cons.injEq, true_and]
  apply List.map_congr_left
  intro j _
  simp only [Function.comp, Nat.succ_eq_add_one, Nat.cast_add, Nat.cast_one]
  ring

theorem descending_length (i : Int) (n : Nat) : (descending i n).length = n := by
  simp [descending]

theorem probes_of_append (a b : List Event) :
    probes_of (a ++ b) = probes_of a ++ probes_of b := by
  induction a with
  | nil => rfl
  | cons e es ih => cases e <;> simp [probes_of, ih]

/-- The `for` loop when its first `k` checks of the flag read false and the
next one, if the range is not finished, reads true: it probes the first `k`
addresses of the range and no other. -/
theorem scan_for_probes (c : ScanConfig) (env : ScanEnv) :
    ∀ (fuel k : Nat) (i : Int) (st : ScanState),
      fuel = (i + 1 - c.end_ip).toNat → k ≤ fuel →
      (∀ j, j < k → env.flag (st.reads + j) = false) →
      (k < fuel → env.flag (st.reads + k) = true) →
      ∃ st1 es, scan_for c env fuel i st = some (st1, es) ∧
        probes_of es = (descending i k).map (snprintf_s_d IP_SIZE c.pfx) ∧
        st1.reads = st.reads + k + (if k < fuel then 1 else 0) ∧
        st1.probes = st.probes + k := by
  intro fuel
  induction fuel with
  | zero =>
    intro k i st hf hk _ _
    have hk0 : k = 0 := by omega
    have hi : ¬ i ≥ c.end_ip := by omega
    subst hk0
    exact ⟨st, [], by simp [scan_for, hi], by simp [descending, probes_of], by simp, by simp⟩
  | succ fuel ih =>
    intro k i st hf hk hfalse htrue
    have hi : i ≥ c.end_ip := by omega
    cases k with
    | zero =>
      have ht : env.flag st.reads = true := by simpa using htrue (by omega)
      exact ⟨{ st with reads := st.reads + 1 }, [.read_server_found true],
        by simp [scan_for, hi, ht], by simp [descending, probes_of], by simp, by simp⟩
    | succ k =>
      have h0 : env.flag st.reads = false := by simpa using hfalse 0 (by omega)
      obtain ⟨st1, es1, hrun, hpr, hrd, hpb⟩ :=
        ih k (i - 1) ⟨st.reads + 1, st.probes + 1⟩ (by omega) (by omega)
          (fun j hj => by
            have := hfalse (j + 1) (by omega)
            simpa [Nat.add_assoc, Nat.add_comm 1 j] using this)
          (fun hlt => by
            have := htrue (by omega)
            simpa [Nat.add_assoc, Nat.add_comm 1 k] using this)
      refine ⟨st1, _, by simp only [scan_for, hi, h0, if_true, hrun]; rfl, ?_, ?_, ?_⟩
      · rw [descending_succ, List.map_cons, ← hpr]
        cases (quick_ping_ip (env.probe st.probes) (snprintf_s_d IP_SIZE c.pfx i)).1 <;>
          simp [probes_of, probes_of_append]
      · rw [hrd]
        by_cases hlt : k < fuel
        · have : k + 1 < fuel + 1 := by omega
          simp [hlt, this]; omega
        · have : ¬ k + 1 < fuel + 1 := by omega
          simp [hlt, this]; omega
      · rw [hpb]; simp only []; omega

/-- One round of the outer loop in which the flag reads false at the entry
check and at the first `k` checks inside the pass, and true at the next one if
the range is not finished. -/
theorem scan_cycle_probes (c : ScanConfig) (env : ScanEnv) (st : ScanState) (k : Nat)
    (hk : k ≤ (c.start_ip + 1 - c.end_ip).toNat)
    (hfalse : ∀ j, j ≤ k → env.flag (st.reads + j) = false)
    (htrue : k < (c.start_ip + 1 - c.end_ip).toNat → env.flag (st.reads + 1 + k) = true) :
    ∃ st1 es, scan_cycle c env st = some (st1, es) ∧
      probes_of es = (descending c.start_ip k).map (snprintf_s_d IP_SIZE c.pfx) := by
  have h0 : env.flag st.reads = false := by simpa using hfalse 0 (by omega)
  obtain ⟨st1, es1, hrun, hpr, _, _⟩ :=
    scan_for_probes c env (c.start_ip + 1 - c.end_ip).toNat k c.start_ip
      { st with reads := st.reads + 1 } rfl hk
      (fun j hj => by
        have := hfalse (j + 1) (by omega)
        simpa [Nat.add_assoc, Nat.add_comm 1 j] using this)
      htrue
  refine ⟨_, _, by simp only [scan_cycle, h0, hrun]; rfl, ?_⟩
  simp [probes_of, probes_of_append, hpr]

theorem mem_descending (i x : Int) (n : Nat) (h : x ∈ descending i n) :
    i - n < x ∧ x ≤ i := by
  unfold descending at h
  rw [List.mem_map] at h
  obtain ⟨j, hj, rfl⟩ := h
  rw [List.mem_range] at hj
  omega

theorem descending_nodup (i : Int) (n : Nat) : (descending i n).Nodup := by
  unfold descending
  apply List.Nodup.map_on _ (List.nodup_range n)
  intro x _ y _ hxy
  omega

/-! ### C2: the order of a scan pass -/

/-- C2 as stated fails for a prefix that does not fit the 16-byte buffer: with
the 14-byte prefix below and the range [254, 250], the formatted text
`192.168.100.10254` is cut to 15 bytes, and the pass probes the one address
`192.168.100.102` five times. -/
theorem scan_pass_cuts_long_addresses :
    (scan_cycle ⟨cstr "192.168.100.10", 254, 250⟩ env_quiet ⟨0, 0⟩).map
        (fun out => probes_of out.2)
      = some [cbytes "192.168.100.102", cbytes "192.168.100.102", cbytes "192.168.100.102",
              cbytes "192.168.100.102", cbytes "192.168.100.102"] ∧
    (descending 254 5).map (fun i => cbytes "192.168.100.10" ++ cbytes (toString i))
      = [cbytes "192.168.100.10254", cbytes "192.168.100.10253",
         cbytes "192.168.100.10252", cbytes "192.168.100.10251",
         cbytes "192.168.100.10250"] ∧
    (scan_cycle ⟨cstr "192.168.100.10", 254, 250⟩ env_quiet ⟨0, 0⟩).map
        (fun out => probes_of out.2)
      ≠ some ((descending 254 5).map
          (fun i => cbytes "192.168.100.10" ++ cbytes (toString i))) := by
  decide

/-- An address made of a prefix of at most 12 bytes and an octet fits
`char ip[16]`. -/
theorem octet_address_fits (pfx : List Byte) (i : Int) (hlen : (c_string_of pfx).length ≤ 12)
    (h0 : 0 ≤ i) (h1 : i ≤ 255) :
    (c_string_of pfx ++ cbytes (toString i)).length < IP_SIZE := by
  have := (octet_decimal_int i h0 h1).1
  rw [List.length_append]
  simp only [IP_SIZE]
  omega

/-- C2 (amended): for every prefix (any bytes; as a C string it ends before its
first zero byte) and last-octet bounds 0 <= end <= start <= 255 such that each
prefix ++ decimal(i), end <= i <= start, has fewer than 16 bytes (it fits
`char ip[16]`, as it does for every prefix of at most 12 bytes), one round of
scan_network in which server_found reads false at the entry check and at every
check inside the pass probes exactly prefix ++ decimal(i) for i = start,
start - 1, ..., end, in that order: start - end + 1 probes, no address
twice. -/
theorem scan_pass_order (c : ScanConfig) (env : ScanEnv) (st : ScanState)
    (he0 : 0 ≤ c.end_ip) (hse : c.end_ip ≤ c.start_ip) (hs : c.start_ip ≤ 255)
    (hfit : ∀ i, c.end_ip ≤ i → i ≤ c.start_ip →
      (c_string_of c.pfx ++ cbytes (toString i)).length < IP_SIZE)
    (hflag : ∀ j, j ≤ (c.start_ip - c.end_ip + 1).toNat → env.flag (st.reads + j) = false) :
    ∃ st1 es, scan_cycle c env st = some (st1, es) ∧
      probes_of es = (descending c.start_ip (c.start_ip - c.end_ip + 1).toNat).map
        (fun i => c_string_of c.pfx ++ cbytes (toString i)) ∧
      (probes_of es).length = (c.start_ip - c.end_ip + 1).toNat ∧
      (probes_of es).Nodup := by
  have hn : (c.start_ip + 1 - c.end_ip).toNat = (c.start_ip - c.end_ip + 1).toNat := by
    congr 1; ring
  obtain ⟨st1, es, hrun, hpr⟩ :=
    scan_cycle_probes c env st (c.start_ip - c.end_ip + 1).toNat (by rw [hn]) hflag
      (fun h => by rw [hn] at h; exact absurd h (lt_irrefl _))
  have hrange : ∀ x ∈ descending c.start_ip (c.start_ip - c.end_ip + 1).toNat,
      c.end_ip ≤ x ∧ x ≤ c.start_ip := by
    intro x hx
    have := mem_descending _ _ _ hx
    omega
  have hmap : (descending c.start_ip (c.start_ip - c.end_ip + 1).toNat).map
        (snprintf_s_d IP_SIZE c.pfx)
      = (descending c.start_ip (c.start_ip - c.end_ip + 1).toNat).map
        (fun i => c_string_of c.pfx ++ cbytes (toString i)) := by
    apply List.map_congr_left
    intro x hx
    apply snprintf_s_d_fits
    have := hfit x (hrange x hx).1 (hrange x hx).2
    omega
  rw [hmap] at hpr
  refine ⟨st1, es, hrun, hpr, by rw [hpr, List.length_map, descending_length], ?_⟩
  rw [hpr]
  apply List.Nodup.map_on _ (descending_nodup _ _)
  intro x hx y hy hxy
  have hstr := List.append_cancel_left hxy
  have hx2 := hrange x hx
  have hy2 := hrange y hy
  have h1 := (octet_decimal_int x (by omega) (by omega)).2
  have h2 := (octet_decimal_int y (by omega) (by omega)).2
  rw [← h1, ← h2, hstr]

theorem scan_pass_order_witness :
    0 ≤ scan_config.end_ip ∧
    scan_config.end_ip ≤ scan_config.start_ip ∧ scan_config.start_ip ≤ 255 ∧
    (∀ i, scan_config.end_ip ≤ i → i ≤ scan_config.start_ip →
      (c_string_of scan_config.pfx ++ cbytes (toString i)).length < IP_SIZE) ∧
    ∃ st1 es, scan_cycle scan_config env_quiet ⟨0, 0⟩ = some (st1, es) ∧
      probes_of es = [cbytes "192.168.1.254", cbytes "192.168.1.253",
                      cbytes "192.168.1.252", cbytes "192.168.1.251",
                      cbytes "192.168.1.250"] :=
  have hfit : ∀ i, scan_config.end_ip ≤ i → i ≤ scan_config.start_ip →
      (c_string_of scan_config.pfx ++ cbytes (toString i)).length < IP_SIZE := by
    intro i h1 h2
    have h3 : (250 : Int) ≤ i := h1
    have h4 : i ≤ (254 : Int) := h2
    exact octet_address_fits _ i (by decide) (by omega) (by omega)
  have h := scan_pass_order scan_config env_quiet ⟨0, 0⟩
    (by decide) (by decide) (by decide) hfit (fun _ _ => rfl)
  ⟨by decide, by decide, by decide, hfit,
    h.elim fun st1 h1 => h1.elim fun es h2 => ⟨st1, es, h2.1, h2.2.1.trans (by decide)⟩⟩

/-! ### C5: no probe while the flag is set -/

theorem guarded_nil : guarded [] := by
  intro pre ip post h
  cases pre <;> simp at h

theorem guarded_append (a b : List Event) (ha : guarded a) (hb : guarded b) :
    guarded (a ++ b) := by
  intro pre ip post h
  rcases List.append_eq_append_iff.mp h with ⟨a', h1, h2⟩ | ⟨c', h1, h2⟩
  · obtain ⟨p, hp⟩ := hb a' ip post h2
    exact ⟨a ++ p, by rw [h1, hp, List.append_assoc]⟩
  · cases c' with
    | nil =>
      simp only [List.nil_append] at h2
      obtain ⟨p, hp⟩ := hb [] ip post h2.symm
      cases p <;> simp at hp
    | cons e c'' =>
      simp only [List.cons_append, List.cons.injEq] at h2
      obtain ⟨he, _⟩ := h2
      subst he
      exact ha pre ip c'' h1

theorem guarded_of_no_probe (es : List Event) (h : probes_of es = []) : guarded es := by
  intro pre ip post heq
  subst heq
  rw [probes_of_append] at h
  simp [probes_of] at h

theorem guarded_read_probe (ip : List Byte) : guarded [.read_server_found false, .quick_ping_ip ip] := by
  intro pre ip' post h
  cases pre with
  | nil => simp at h
  | cons e pre =>
    simp only [List.cons_append, List.cons.injEq] at h
    obtain ⟨he, h2⟩ := h
    cases pre with
    | nil => exact ⟨[], by simp [he]⟩
    | cons e2 pre2 =>
      simp only [List.cons_append, List.cons.injEq] at h2
      obtain ⟨_, h3⟩ := h2
      cases pre2 <;> simp at h3

theorem scan_for_guarded (c : ScanConfig) (env : ScanEnv) :
    ∀ (fuel : Nat) (i : Int) (st : ScanState), (i + 1 - c.end_ip).toNat ≤ fuel →
      ∃ st1 es, scan_for c env fuel i st = some (st1, es) ∧ guarded es := by
  intro fuel
  induction fuel with
  | zero =>
    intro i st hf
    have hi : ¬ i ≥ c.end_ip := by omega
    exact ⟨st, [], by simp [scan_for, hi], guarded_nil⟩
  | succ fuel ih =>
    intro i st hf
    by_cases hi : i ≥ c.end_ip
    · by_cases hflag : env.flag st.reads = true
      · exact ⟨{ st with reads := st.reads + 1 }, [.read_server_found true],
          by simp only [scan_for, hi, hflag, if_true],
          guarded_of_no_probe _ (by simp [probes_of])⟩
      · obtain ⟨st1, es1, hrun, hg⟩ :=
          ih (i - 1) ⟨st.reads + 1, st.probes + 1⟩ (by omega)
        refine ⟨st1, _, by simp only [scan_for, hi, hflag, if_true, hrun]; rfl, ?_⟩
        apply guarded_append _ _ _ hg
        apply guarded_append _ _ _ (guarded_of_no_probe _ (by simp [probes_of]))
        apply guarded_append _ _ (guarded_read_probe _)
        apply guarded_of_no_probe
        split_ifs <;> simp [probes_of]
    · exact ⟨st, [], by simp [scan_for, hi], guarded_nil⟩

theorem scan_cycle_guarded (c : ScanConfig) (env : ScanEnv) (st : ScanState) :
    ∃ st1 es, scan_cycle c env st = some (st1, es) ∧ guarded es := by
  by_cases hflag : env.flag st.reads = true
  · exact ⟨{ st with reads := st.reads + 1 },
      [.read_server_found true, .vTaskDelay SCAN_INTERVAL_MS],
      by simp only [scan_cycle, hflag, if_true],
      guarded_of_no_probe _ (by simp [probes_of])⟩
  · obtain ⟨st1, es1, hrun, hg⟩ :=
      scan_for_guarded c env (c.start_ip + 1 - c.end_ip).toNat c.start_ip
        { st with reads := st.reads + 1 } (le_refl _)
    refine ⟨_, _, by simp only [scan_cycle, hflag, hrun]; rfl, ?_⟩
    have : Event.read_server_found false :: es1 ++
        [Event.read_server_found (env.flag st1.reads), Event.vTaskDelay SCAN_INTERVAL_MS]
        = [Event.read_server_found false] ++ (es1 ++
        [Event.read_server_found (env.flag st1.reads), Event.vTaskDelay SCAN_INTERVAL_MS]) := by
      simp
    rw [this]
    apply guarded_append _ _ (guarded_of_no_probe _ (by simp [probes_of]))
    exact guarded_append _ _ hg (guarded_of_no_probe _ (by simp [probes_of]))

theorem scan_network_guarded (c : ScanConfig) (env : ScanEnv) :
    ∀ (n : Nat) (st : ScanState),
      ∃ st1 es, scan_network c env n st = some (st1, es) ∧ guarded es := by
  intro n
  induction n with
  | zero => intro st; exact ⟨st, [], rfl, guarded_nil⟩
  | succ n ih =>
    intro st
    obtain ⟨st1, es1, hrun1, hg1⟩ := scan_cycle_guarded c env st
    obtain ⟨st2, es2, hrun2, hg2⟩ := ih st1
    exact ⟨st2, es1 ++ es2, by simp only [scan_network, hrun1, hrun2],
      guarded_append _ _ hg1 hg2⟩

/-- C5: in any number of rounds of scan_network, whatever values the flag has
when it is read, every call of quick_ping_ip comes right after a read of
server_found that gave false; a round whose entry check reads true probes
nothing; and when a check inside the pass reads true after k checks that read
false, the pass has probed the first k addresses of the range and probes none
of the others. -/
theorem no_probe_while_claimed (c : ScanConfig) (env : ScanEnv) (n : Nat) (st : ScanState)
    (k : Nat) :
    (∃ st1 es, scan_network c env n st = some (st1, es) ∧
      ∀ pre ip post, es = pre ++ .quick_ping_ip ip :: post →
        ∃ pre', pre = pre' ++ [.read_server_found false]) ∧
    (env.flag st.reads = true →
      ∃ st1 es, scan_cycle c env st = some (st1, es) ∧
        es = [.read_server_found true, .vTaskDelay SCAN_INTERVAL_MS] ∧ probes_of es = []) ∧
    (k < (c.start_ip + 1 - c.end_ip).toNat →
      (∀ j, j ≤ k → env.flag (st.reads + j) = false) →
      env.flag (st.reads + 1 + k) = true →
      ∃ st1 es, scan_cycle c env st = some (st1, es) ∧
        probes_of es = (descending c.start_ip k).map (snprintf_s_d IP_SIZE c.pfx)) := by
  refine ⟨scan_network_guarded c env n st, ?_, ?_⟩
  · intro hflag
    exact ⟨{ st with reads := st.reads + 1 }, _,
      by simp only [scan_cycle, hflag, if_true], rfl, by simp [probes_of]⟩
  · intro hk hfalse htrue
    exact scan_cycle_probes c env st k (le_of_lt hk) hfalse (fun _ => htrue)

theorem no_probe_while_claimed_witness :
    (2 < (scan_config.start_ip + 1 - scan_config.end_ip).toNat) ∧
    (∀ j, j ≤ 2 → env_claim_mid.flag (0 + j) = false) ∧
    env_claim_mid.flag (0 + 1 + 2) = true ∧
    ∃ st1 es, scan_cycle scan_config env_claim_mid ⟨0, 0⟩ = some (st1, es) ∧
      probes_of es = [cbytes "192.168.1.254", cbytes "192.168.1.253"] :=
  have hf : ∀ j, j ≤ 2 → env_claim_mid.flag (0 + j) = false := by
    intro j hj
    interval_cases j <;> rfl
  have h := (no_probe_while_claimed scan_config env_claim_mid 1 ⟨0, 0⟩ 2).2.2
    (by decide) hf rfl
  ⟨by decide, hf, rfl,
    h.elim fun st1 h1 => h1.elim fun es h2 => ⟨st1, es, h2.1, h2.2.trans (by decide)⟩⟩

/-! ### C7: the prober -/

/-- C7 as stated fails: when the connection attempt is refused and select
reports the socket in its write set, quick_ping_ip returns true; the code never
asks how the attempt ended. -/
theorem quick_ping_ip_true_on_refusal :
    probe_refused.attempt_failed ∧
    (quick_ping_ip probe_refused (cbytes "192.168.1.254")).1 = true := by
  decide

/-- C7 (amended): quick_ping_ip returns true if and only if the probe socket
was created and select, called with the timeout PING_TIMEOUT_MS, returns a
positive count with the socket in its write set; it returns false when select
times out (returns 0), when select fails, and when the socket cannot be
created.  The result does not depend on what connect returned nor on the error
pending on the socket, so a refused or failed attempt gives false only when
select does not report the socket writable.  When a socket was created it is
closed exactly once, as the last call; otherwise nothing is closed. -/
theorem quick_ping_ip_result (t : ProbeEnv) (ip : List Byte) (rc err : Int) :
    ((quick_ping_ip t ip).1 = true ↔ 0 ≤ t.sock ∧ 0 < t.select_rc ∧ t.writable = true) ∧
    (t.select_rc = 0 → (quick_ping_ip t ip).1 = false) ∧
    (t.select_rc < 0 → (quick_ping_ip t ip).1 = false) ∧
    (t.sock < 0 → quick_ping_ip t ip = (false, [.socket])) ∧
    (quick_ping_ip { t with connect_rc := rc, so_error := err } ip).1
      = (quick_ping_ip t ip).1 ∧
    (0 ≤ t.sock →
      Event.select t.sock PING_TIMEOUT_MS ∈ (quick_ping_ip t ip).2 ∧
      closes_of (quick_ping_ip t ip).2 = [t.sock] ∧
      ∃ pre, (quick_ping_ip t ip).2 = pre ++ [.close t.sock]) := by
  unfold quick_ping_ip
  by_cases hs : t.sock < 0
  · have hs2 : ¬ 0 ≤ t.sock := by omega
    simp [hs, hs2]
  · have hs2 : 0 ≤ t.sock := by omega
    simp only [hs, if_false]
    refine ⟨?_, ?_, ?_, ?_, trivial, ?_⟩
    · simp [hs2]
    · intro h; simp [h]
    · intro h
      have : ¬ 0 < t.select_rc := by omega
      simp [this]
    · intro h; exact h.elim
    · intro _
      refine ⟨by simp, by simp [closes_of], ?_⟩
      exact ⟨[.socket, .fcntl_getfl t.sock, .fcntl_nonblock t.sock,
        .connect t.sock ip SERVER_PORT, .select t.sock PING_TIMEOUT_MS], rfl⟩

theorem quick_ping_ip_result_witness :
    (quick_ping_ip ⟨3, -1, 0, false, 0⟩ (cbytes "192.168.1.254")).1 = false ∧
    quick_ping_ip ⟨-1, -1, 0, false, 0⟩ (cbytes "192.168.1.254") = (false, [.socket]) ∧
    closes_of (quick_ping_ip probe_refused (cbytes "192.168.1.254")).2 = [3] :=
  ⟨(quick_ping_ip_result ⟨3, -1, 0, false, 0⟩ (cbytes "192.168.1.254") 0 0).2.1 rfl,
   (quick_ping_ip_result ⟨-1, -1, 0, false, 0⟩ (cbytes "192.168.1.254") 0 0).2.2.2.1 (by decide),
   ((quick_ping_ip_result probe_refused (cbytes "192.168.1.254") 0 0).2.2.2.2.2 (by decide)).2.1⟩

/-! ### C9: scanner and workers together -/

theorem scanner_step_flag (c : ScanConfig) (s : Sys) (live : Bool) :
    (scanner_step c s live).server_found = s.server_found := by
  unfold scanner_step
  split <;> (try split_ifs) <;> rfl

theorem scanner_step_workers (c : ScanConfig) (s : Sys) (live : Bool) :
    (scanner_step c s live).workers = s.workers ∨
    (scanner_step c s live).workers = s.workers ++ [.at_socket] := by
  unfold scanner_step
  split <;> (try split_ifs) <;> simp

/-- What a step of worker `k` does to the system. -/
theorem step_worker (c : ScanConfig) (s s1 : Sys) (k : Nat) (ok : Bool)
    (h : step c s (.worker k ok) = some s1) :
    ∃ w f w1, s.workers[k]? = some w ∧ worker_step s.server_found ok w = some (f, w1) ∧
      s1.server_found = f ∧ s1.workers = s.workers.set k w1 := by
  simp only [step] at h
  cases hw : s.workers[k]? with
  | none => simp [hw] at h
  | some w =>
    cases hst : worker_step s.server_found ok w with
    | none => simp [hw, hst] at h
    | some r =>
      obtain ⟨f, w1⟩ := r
      simp only [hw, hst, Option.some.injEq] at h
      subst h
      exact ⟨w, f, w1, rfl, hst, rfl, rfl⟩

theorem worker_step_alive (flag ok : Bool) (w : WPc) (r : Bool × WPc)
    (h : worker_step flag ok w = some r) : w.alive = true := by
  cases w <;> simp [worker_step] at h <;> rfl

theorem holds_alive (w : WPc) (h : w.holds = true) : w.alive = true := by
  cases w <;> simp [WPc.holds] at h <;> rfl

/-- With at most one element satisfying `p`, two positions holding such
elements are the same position. -/
theorem unique_index {α : Type} (p : α → Bool) (l : List α) :
    ∀ (i j : Nat) (a b : α), (l.filter p).length ≤ 1 → l[i]? = some a → l[j]? = some b →
      p a = true → p b = true → i = j := by
  induction l with
  | nil => intro i j a b _ hi; simp at hi
  | cons x xs ih =>
    intro i j a b hlen hi hj ha hb
    have hmem : ∀ (n : Nat) (y : α), xs[n]? = some y → p y = true →
        1 ≤ (xs.filter p).length := by
      intro n y hy hp
      have hin : y ∈ xs.filter p :=
        List.mem_filter.mpr ⟨List.getElem?_mem hy, hp⟩
      exact List.length_pos_of_mem hin
    cases i with
    | zero =>
      cases j with
      | zero => rfl
      | succ j =>
        simp only [List.getElem?_cons_zero, Option.some.injEq] at hi
        simp only [List.getElem?_cons_succ] at hj
        subst hi
        have := hmem j b hj hb
        simp only [List.filter_cons, ha, if_true, List.length_cons] at hlen
        omega
    | succ i =>
      cases j with
      | zero =>
        simp only [List.getElem?_cons_zero, Option.some.injEq] at hj
        simp only [List.getElem?_cons_succ] at hi
        subst hj
        have := hmem i a hi ha
        simp only [List.filter_cons, hb, if_true, List.length_cons] at hlen
        omega
      | succ j =>
        simp only [List.getElem?_cons_succ] at hi hj
        have hlen2 : (xs.filter p).length ≤ 1 := by
          by_cases hx : p x = true
          · simp only [List.filter_cons, hx, if_true, List.length_cons] at hlen
            omega
          · simpa [List.filter_cons, hx] using hlen
        rw [ih i j a b hlen2 hi hj ha hb]

/-- The three kinds of worker step: the claim, the release, and the steps that
leave the flag alone and keep the worker on its side of the claim. -/
theorem worker_step_cases (flag ok : Bool) (w : WPc) (f : Bool) (w1 : WPc)
    (h : worker_step flag ok w = some (f, w1)) :
    (f = true ∧ w1 = .at_recv) ∨
    (f = false ∧ w1 = .done) ∨
    (f = flag ∧ (w.holds = true ↔ w1.holds = true)) := by
  cases w <;> cases ok <;> simp [worker_step] at h <;> obtain ⟨h1, h2⟩ := h <;>
    subst h1 <;> subst h2 <;> simp [WPc.holds]

theorem step_holder_inv (c : ScanConfig) (s s1 : Sys) (a : Action)
    (hinv : holder_inv s) (h : step c s a = some s1) : holder_inv s1 := by
  cases a with
  | scanner live =>
    simp only [step, Option.some.injEq] at h
    subst h
    intro hf
    rw [scanner_step_flag] at hf
    obtain ⟨w, hw, hh⟩ := hinv hf
    rcases scanner_step_workers c s live with h1 | h1
    · exact ⟨w, by rw [h1]; exact hw, hh⟩
    · exact ⟨w, by rw [h1]; exact List.mem_append_left _ hw, hh⟩
  | worker k ok =>
    obtain ⟨w, f, w1, hk, hst, hf, hws⟩ := step_worker c s s1 k ok h
    have hklt : k < s.workers.length := (List.getElem?_eq_some.mp hk).1
    have hw1 : w1 ∈ s1.workers := by
      rw [hws]; exact List.mem_set _ _ hklt _
    intro hflag
    rw [hf] at hflag
    rcases worker_step_cases _ _ _ _ _ hst with ⟨_, h2⟩ | ⟨h1, _⟩ | ⟨h1, h2⟩
    · exact ⟨w1, hw1, by rw [h2]; rfl⟩
    · rw [h1] at hflag; cases hflag
    · rw [h1] at hflag
      obtain ⟨x, hx, hxh⟩ := hinv hflag
      obtain ⟨j, hj⟩ := List.mem_iff_getElem?.mp hx
      by_cases hjk : j = k
      · subst hjk
        rw [hk, Option.some.injEq] at hj
        subst hj
        exact ⟨w1, hw1, h2.mp hxh⟩
      · refine ⟨x, ?_, hxh⟩
        rw [hws]
        apply List.getElem?_mem (n := j)
        rw [List.getElem?_set_ne (Ne.symm hjk)]
        exact hj

theorem step_flag_inv (c : ScanConfig) (s s1 : Sys) (a : Action)
    (hsolo : solo s) (hinv : flag_inv s) (h : step c s a = some s1) : flag_inv s1 := by
  cases a with
  | scanner live =>
    simp only [step, Option.some.injEq] at h
    subst h
    rintro ⟨w, hw, hh⟩
    rw [scanner_step_flag]
    apply hinv
    rcases scanner_step_workers c s live with h1 | h1
    · exact ⟨w, by rw [h1] at hw; exact hw, hh⟩
    · rw [h1, List.mem_append] at hw
      rcases hw with hw | hw
      · exact ⟨w, hw, hh⟩
      · simp only [List.mem_singleton] at hw
        subst hw
        simp [WPc.holds] at hh
  | worker k ok =>
    obtain ⟨w, f, w1, hk, hst, hf, hws⟩ := step_worker c s s1 k ok h
    have hklt : k < s.workers.length := (List.getElem?_eq_some.mp hk).1
    have hwalive := worker_step_alive _ _ _ _ hst
    have hwmem : w ∈ s.workers := List.getElem?_mem hk
    rintro ⟨x, hx, hxh⟩
    rw [hf]
    obtain ⟨j, hj⟩ := List.mem_iff_getElem?.mp hx
    rw [hws] at hj
    by_cases hjk : j = k
    · subst hjk
      rw [List.getElem?_set_self hklt, Option.some.injEq] at hj
      subst hj
      rcases worker_step_cases _ _ _ _ _ hst with ⟨h1, _⟩ | ⟨_, h2⟩ | ⟨h1, h2⟩
      · exact h1
      · rw [h2] at hxh; simp [WPc.holds] at hxh
      · rw [h1]; exact hinv ⟨w, hwmem, h2.mpr hxh⟩
    · rw [List.getElem?_set_ne (Ne.symm hjk)] at hj
      exact absurd (unique_index WPc.alive s.workers j k x w hsolo hj hk
        (holds_alive x hxh) hwalive) hjk

theorem run_holder_inv (c : ScanConfig) (sched : List Action) :
    ∀ (s s1 : Sys), holder_inv s → run c s sched = some s1 → holder_inv s1 := by
  induction sched with
  | nil =>
    intro s s1 hinv h
    simp only [run, Option.some.injEq] at h
    subst h; exact hinv
  | cons a as ih =>
    intro s s1 hinv h
    simp only [run] at h
    cases hst : step c s a with
    | none => simp [hst] at h
    | some s2 =>
      simp only [hst] at h
      exact ih s2 s1 (step_holder_inv c s s2 a hinv hst) h

theorem run_flag_inv (c : ScanConfig) (sched : List Action) :
    ∀ (s s1 : Sys), flag_inv s → one_at_a_time c s sched = true →
      run c s sched = some s1 → flag_inv s1 ∧ solo s1 := by
  induction sched with
  | nil =>
    intro s s1 hinv hone h
    simp only [run, Option.some.injEq] at h
    subst h
    exact ⟨hinv, by simpa [one_at_a_time] using hone⟩
  | cons a as ih =>
    intro s s1 hinv hone h
    simp only [run] at h
    cases hst : step c s a with
    | none => simp [hst] at h
    | some s2 =>
      simp only [hst] at h
      simp only [one_at_a_time, hst, Bool.and_eq_true, decide_eq_true_eq] at hone
      exact ih s2 s1 (step_flag_inv c s s2 a hone.1 hinv hst) hone.2 h

/-- C9 as stated fails: on the configured range, when .254 and .253 both
answer the probe and the first worker has not finished connecting when the
second address is probed, both workers set server_found and are inside their
receive loops at once; when the first one then tears down, server_found is
false while the second is still in its loop with its socket open. -/
theorem two_workers_in_receive_loop :
    run scan_config sys_init race_schedule
      = some ⟨true, .probe_delay 253, [.at_recv, .at_recv]⟩ ∧
    run scan_config sys_init (race_schedule ++ race_teardown)
      = some ⟨false, .probe_delay 253, [.done, .at_recv]⟩ := by
  decide

/-- C9 (amended): in every interleaving of the scanner and its workers,
whenever server_found is true some worker is between setting it (line 218) and
resetting it (line 263); and in the interleavings in which at most one worker
is alive at a time, at most one worker is inside its receive loop and
server_found is true exactly while a worker is between lines 218 and 263. -/
theorem server_found_has_holder (c : ScanConfig) (sched : List Action) (s : Sys)
    (hrun : run c sys_init sched = some s) :
    (s.server_found = true → ∃ w ∈ s.workers, w.holds = true) ∧
    (one_at_a_time c sys_init sched = true →
      s.workers.count .at_recv ≤ 1 ∧
      (s.server_found = true ↔ ∃ w ∈ s.workers, w.holds = true)) := by
  have h0 : holder_inv sys_init := by
    intro h; cases h
  have h1 : flag_inv sys_init := by
    rintro ⟨w, hw, _⟩
    simp [sys_init] at hw
  have hh := run_holder_inv c sched sys_init s h0 hrun
  refine ⟨hh, ?_⟩
  intro hone
  obtain ⟨hf, hsolo⟩ := run_flag_inv c sched sys_init s h1 hone hrun
  refine ⟨?_, hh, hf⟩
  have hle : s.workers.count .at_recv ≤ (s.workers.filter WPc.alive).length := by
    rw [List.count, List.countP_eq_length_filter]
    apply List.Sublist.length_le
    apply List.monotone_filter_right
    intro a ha
    have : a = WPc.at_recv := by simpa using ha
    subst this
    rfl
  exact le_trans hle hsolo

theorem server_found_has_holder_witness :
    run scan_config sys_init solo_schedule = some ⟨true, .probe_delay 254, [.at_recv]⟩ ∧
    one_at_a_time scan_config sys_init solo_schedule = true ∧
    (∃ w ∈ [WPc.at_recv], w.holds = true) :=
  have hrun : run scan_config sys_init solo_schedule
      = some ⟨true, .probe_delay 254, [.at_recv]⟩ := by decide
  ⟨hrun, by decide,
    (server_found_has_holder scan_config solo_schedule
      ⟨true, .probe_delay 254, [.at_recv]⟩ hrun).1 rfl⟩

end WifiComm
